import Mathlib

/-!
# Obstacle-avoiding robot: direction memory, decision logic and ranging

A shallow embedding of the two controller variants of the repository:

* `Arduino`: `Src/Arduino/include/HAL/DCMotor.h` (direction memory with a
  block window, scan of three headings, priority selection);
* `PureC`: `Src/test/Main.c` (register-level variant without memory).

Calls into the hardware layer are recorded as a list of events in program
order.  What the hardware gives back (the clock `millis()`, the echo length
from `pulseIn`, the samples of the echo pin) is an argument of the embedded
function.  `Serial` and UART output is not recorded: it has no effect on
memory or motors.
-/

namespace Drive

/-! ## Motor outputs over time (both variants) -/

/-- A stretch of time with constant motor outputs: a delay of `us`
microseconds, or the wait for an echo. -/
inductive Span where
  | wait (left right : Int) (us : Nat)
  | echo (left right : Int)
deriving DecidableEq, Repr

/-- Signed pivot of one stretch: duration times the difference of the two
drives (positive is a turn to the left); 0 for an echo wait. -/
def Span.pivot : Span → Int
  | .wait l r us => (r - l) * us
  | .echo _ _ => 0

/-- Whether the motors are driven during a stretch. -/
def Span.driven : Span → Bool
  | .wait l r _ => decide (l ≠ 0 ∨ r ≠ 0)
  | .echo l r => decide (l ≠ 0 ∨ r ≠ 0)

/-- Net rotation of a timeline: the sum of the signed pivots. -/
def netRotation (ss : List Span) : Int := (ss.map Span.pivot).sum

end Drive

namespace Arduino

open Drive

/-! ## Constants of `DCMotor.h` -/

def ENA : Nat := 5
def IN1 : Nat := 6
def IN2 : Nat := 7
def ENB : Nat := 9
def IN3 : Nat := 10
def IN4 : Nat := 11
def TRIG_PIN : Nat := 2
def ECHO_PIN : Nat := 3

def HIGH : Bool := true
def LOW : Bool := false

def SPEED_FWD : Nat := 180
def SPEED_TURN : Nat := 160
def OBSTACLE_CM : Int := 20
def ROTATE_TIME_MS : Nat := 400
def SPIN_TIME_MS : Nat := ROTATE_TIME_MS * 4
def MOVE_STEP_MS : Nat := 300
def BLOCK_TIME_MS : Nat := 10000

/-- Number of values of `unsigned long` on the AVR target (32 bits). -/
def ULONG_SIZE : Nat := 2 ^ 32

/-! ## Direction memory -/

inductive DirIndex where
  | DIR_FWD
  | DIR_LEFT
  | DIR_RIGHT
deriving DecidableEq, Repr

structure DirBlock where
  blocked : Bool
  until_ms : Nat
deriving DecidableEq, Repr

/-- The array `DirBlock dirBlock[3]`, one entry per `DirIndex`. -/
structure DirMem where
  fwd : DirBlock
  left : DirBlock
  right : DirBlock
deriving DecidableEq, Repr

/-- Read of `dirBlock[idx]`. -/
def DirMem.get (m : DirMem) : DirIndex → DirBlock
  | .DIR_FWD => m.fwd
  | .DIR_LEFT => m.left
  | .DIR_RIGHT => m.right

/-- Store to `dirBlock[idx]`. -/
def DirMem.set (m : DirMem) (idx : DirIndex) (b : DirBlock) : DirMem :=
  match idx with
  | .DIR_FWD => { m with fwd := b }
  | .DIR_LEFT => { m with left := b }
  | .DIR_RIGHT => { m with right := b }

/-- The initialiser of the global `dirBlock`. -/
def dirBlock : DirMem :=
  { fwd := { blocked := false, until_ms := 0 }
    left := { blocked := false, until_ms := 0 }
    right := { blocked := false, until_ms := 0 } }

/-- `directionAvailable(idx, isOpenNow)`; `now` is what `millis()` returns
in the call.  The sum `now + BLOCK_TIME_MS` is an `unsigned long` sum and
wraps at `2 ^ 32`.  Result: the returned flag and the memory afterwards. -/
def directionAvailable (mem : DirMem) (now : Nat) (idx : DirIndex)
    (isOpenNow : Bool) : Bool × DirMem :=
  let b := mem.get idx
  if !isOpenNow then
    (false, mem.set idx { blocked := true, until_ms := (now + BLOCK_TIME_MS) % ULONG_SIZE })
  else if b.blocked then
    if now < b.until_ms then
      (false, mem)
    else
      (true, mem.set idx { b with blocked := false })
  else
    (true, mem)

/-! ## Hardware calls -/

/-- One call into the Arduino core, in program order.  `pulseIn` carries the
value the call returned. -/
inductive Ev where
  | digitalWrite (pin : Nat) (level : Bool)
  | analogWrite (pin : Nat) (val : Int)
  | delay (ms : Nat)
  | delayMicroseconds (us : Nat)
  | pulseIn (pin : Nat) (level : Bool) (timeout : Nat) (result : Nat)
deriving DecidableEq, Repr

/-- `setLeft(dir, speed)`: `dir` is +1 forward, -1 backward, 0 stop. -/
def setLeft (dir : Int) (speed : Int) : List Ev :=
  if dir > 0 then
    [.digitalWrite IN1 HIGH, .digitalWrite IN2 LOW, .analogWrite ENA speed]
  else if dir < 0 then
    [.digitalWrite IN1 LOW, .digitalWrite IN2 HIGH, .analogWrite ENA speed]
  else
    [.digitalWrite IN1 LOW, .digitalWrite IN2 LOW, .analogWrite ENA 0]

/-- `setRight(dir, speed)`. -/
def setRight (dir : Int) (speed : Int) : List Ev :=
  if dir > 0 then
    [.digitalWrite IN3 HIGH, .digitalWrite IN4 LOW, .analogWrite ENB speed]
  else if dir < 0 then
    [.digitalWrite IN3 LOW, .digitalWrite IN4 HIGH, .analogWrite ENB speed]
  else
    [.digitalWrite IN3 LOW, .digitalWrite IN4 LOW, .analogWrite ENB 0]

/-- Conversion of an argument to the `uint8_t` parameter `speed`. -/
def toUint8 (speed : Nat) : Int := ((speed % 256 : Nat) : Int)

def moveForward (speed : Nat) : List Ev :=
  setLeft 1 (toUint8 speed) ++ setRight 1 (toUint8 speed)

def turnLeft (speed : Nat) : List Ev :=
  setLeft (-1) (toUint8 speed) ++ setRight 1 (toUint8 speed)

def turnRight (speed : Nat) : List Ev :=
  setLeft 1 (toUint8 speed) ++ setRight (-1) (toUint8 speed)

def stopMotors : List Ev :=
  setLeft 0 0 ++ setRight 0 0

/-- `spin360(speed)`: spin left for `SPIN_TIME_MS`, then stop. -/
def spin360 (speed : Nat) : List Ev :=
  turnLeft speed ++ [.delay SPIN_TIME_MS] ++ stopMotors

/-! ## Ultrasonic ranging -/

/-- Conversion of the `unsigned long` returned by `pulseIn` to `long`
(32 bits, two's complement). -/
def toLong (u : Nat) : Int :=
  if u % 2 ^ 32 < 2 ^ 31 then ((u % 2 ^ 32 : Nat) : Int)
  else ((u % 2 ^ 32 : Nat) : Int) - 2 ^ 32

/-- The value `readDistanceCM()` returns when `pulseIn` returned `echo`
(0 is the timeout).  The division is C's, truncating toward zero. -/
def readDistanceCM_value (echo : Nat) : Int :=
  let duration := toLong echo
  if duration = 0 then 400
  else Int.tdiv duration 58

/-- The hardware calls of `readDistanceCM()` when `pulseIn` returns `echo`. -/
def readDistanceCM_calls (echo : Nat) : List Ev :=
  [.digitalWrite TRIG_PIN LOW, .delayMicroseconds 2,
   .digitalWrite TRIG_PIN HIGH, .delayMicroseconds 10,
   .digitalWrite TRIG_PIN LOW,
   .pulseIn ECHO_PIN HIGH 30000 echo]

/-- `readDistanceCM()`: the returned distance and the calls made. -/
def readDistanceCM (echo : Nat) : Int × List Ev :=
  (readDistanceCM_value echo, readDistanceCM_calls echo)

/-- The three distances `scanDirections` writes through its pointers. -/
structure Scan where
  front : Int
  left : Int
  right : Int
deriving DecidableEq, Repr

/-- `scanDirections(&front, &left, &right)`; `echoF`, `echoL`, `echoR` are
what the three `pulseIn` calls return, in program order. -/
def scanDirections (echoF echoL echoR : Nat) : Scan × List Ev :=
  let e0 := stopMotors ++ [.delay 100]
  let front := readDistanceCM echoF
  -- look left
  let e1 := turnLeft SPEED_TURN ++ [.delay ROTATE_TIME_MS] ++ stopMotors ++ [.delay 100]
  let left := readDistanceCM echoL
  -- look right
  let e2 := turnRight SPEED_TURN ++ [.delay (ROTATE_TIME_MS * 2)] ++ stopMotors ++ [.delay 100]
  let right := readDistanceCM echoR
  -- back to the original front
  let e3 := turnLeft SPEED_TURN ++ [.delay ROTATE_TIME_MS] ++ stopMotors ++ [.delay 100]
  ({ front := front.1, left := left.1, right := right.1 },
   e0 ++ front.2 ++ e1 ++ left.2 ++ e2 ++ right.2 ++ e3)

/-! ## Decision logic -/

/-- The comparison `dist > OBSTACLE_CM` of `decideAndMove`, with the
threshold as an argument. -/
def isOpenAt (threshold dist : Int) : Bool := decide (dist > threshold)

/-- The flags `frontOK`, `leftOK`, `rightOK` of `decideAndMove`. -/
structure Avail where
  frontOK : Bool
  leftOK : Bool
  rightOK : Bool
deriving DecidableEq, Repr

/-- Lines 188-194 of `decideAndMove`: classification of the three distances
and the three calls of `directionAvailable`; `t1`, `t2`, `t3` are what
`millis()` returns in them. -/
def decideAndMove_avail (mem : DirMem) (s : Scan) (t1 t2 t3 : Nat) : Avail × DirMem :=
  let frontOpenNow := isOpenAt OBSTACLE_CM s.front
  let leftOpenNow := isOpenAt OBSTACLE_CM s.left
  let rightOpenNow := isOpenAt OBSTACLE_CM s.right
  let f := directionAvailable mem t1 .DIR_FWD frontOpenNow
  let l := directionAvailable f.2 t2 .DIR_LEFT leftOpenNow
  let r := directionAvailable l.2 t3 .DIR_RIGHT rightOpenNow
  ({ frontOK := f.1, leftOK := l.1, rightOK := r.1 }, r.2)

/-- Lines 204-232 of `decideAndMove`: the motion chosen from the flags. -/
def decideAndMove_move (a : Avail) : List Ev :=
  if a.frontOK then
    moveForward SPEED_FWD ++ [.delay MOVE_STEP_MS]
  else if a.leftOK then
    turnLeft SPEED_TURN ++ [.delay ROTATE_TIME_MS] ++
      moveForward SPEED_FWD ++ [.delay MOVE_STEP_MS]
  else if a.rightOK then
    turnRight SPEED_TURN ++ [.delay ROTATE_TIME_MS] ++
      moveForward SPEED_FWD ++ [.delay MOVE_STEP_MS]
  else
    spin360 SPEED_TURN

/-- `decideAndMove()`: memory afterwards and the hardware calls made. -/
def decideAndMove (mem : DirMem) (echoF echoL echoR : Nat) (t1 t2 t3 : Nat) :
    DirMem × List Ev :=
  let sc := scanDirections echoF echoL echoR
  let av := decideAndMove_avail mem sc.1 t1 t2 t3
  (av.2, sc.2 ++ decideAndMove_move av.1)

/-! ## Motor outputs seen by the L298N driver

What the recorded calls do to the two motor channels: the direction inputs
`IN1`..`IN4` and the PWM duties on `ENA`, `ENB`. -/

structure Pins where
  in1 : Bool
  in2 : Bool
  in3 : Bool
  in4 : Bool
  ena : Int
  enb : Int
deriving DecidableEq, Repr

/-- Effect of one call on the motor pins. -/
def Pins.apply (p : Pins) : Ev → Pins
  | .digitalWrite pin level =>
      if pin = IN1 then { p with in1 := level }
      else if pin = IN2 then { p with in2 := level }
      else if pin = IN3 then { p with in3 := level }
      else if pin = IN4 then { p with in4 := level }
      else p
  | .analogWrite pin val =>
      if pin = ENA then { p with ena := val }
      else if pin = ENB then { p with enb := val }
      else p
  | _ => p

/-- Signed drive of the left channel: duty forward (`IN1` high, `IN2` low),
minus the duty backward (`IN1` low, `IN2` high), 0 when both inputs agree. -/
def Pins.leftDrive (p : Pins) : Int :=
  if p.in1 && !p.in2 then p.ena else if !p.in1 && p.in2 then -p.ena else 0

/-- Signed drive of the right channel. -/
def Pins.rightDrive (p : Pins) : Int :=
  if p.in3 && !p.in4 then p.enb else if !p.in3 && p.in4 then -p.enb else 0

/-- The pins after a list of calls. -/
def pinsAfter (p : Pins) (es : List Ev) : Pins := es.foldl Pins.apply p

/-- The stretches of time of a list of calls, with the motor outputs that
hold during each. -/
def timeline : Pins → List Ev → List Span
  | _, [] => []
  | p, .delay ms :: es => .wait p.leftDrive p.rightDrive (1000 * ms) :: timeline p es
  | p, .delayMicroseconds us :: es => .wait p.leftDrive p.rightDrive us :: timeline p es
  | p, .pulseIn _ _ _ _ :: es => .echo p.leftDrive p.rightDrive :: timeline p es
  | p, .digitalWrite pin level :: es => timeline (p.apply (.digitalWrite pin level)) es
  | p, .analogWrite pin val :: es => timeline (p.apply (.analogWrite pin val)) es

/-! ## Actions of the specification -/

/-- The four actions of the decision engine (specification, data model). -/
inductive Action where
  | MoveForward
  | TurnThenMoveLeft
  | TurnThenMoveRight
  | SpinInPlace
deriving DecidableEq, Repr

/-- Priority law of the specification: first match wins. -/
def selectByPriority (front left right : Bool) : Action :=
  if front then .MoveForward
  else if left then .TurnThenMoveLeft
  else if right then .TurnThenMoveRight
  else .SpinInPlace

/-- What each action is on the motors: the stretches of time with their
left and right drives, as the constants of `DCMotor.h` fix them. -/
def Action.spans : Action → List Span
  | .MoveForward => [.wait 180 180 300000]
  | .TurnThenMoveLeft => [.wait (-160) 160 400000, .wait 180 180 300000]
  | .TurnThenMoveRight => [.wait 160 (-160) 400000, .wait 180 180 300000]
  | .SpinInPlace => [.wait (-160) 160 1600000]

/-- The action a timeline shows, when it is the timeline of one. -/
def actionOf (ss : List Span) : Option Action :=
  if ss = Action.spans .MoveForward then some .MoveForward
  else if ss = Action.spans .TurnThenMoveLeft then some .TurnThenMoveLeft
  else if ss = Action.spans .TurnThenMoveRight then some .TurnThenMoveRight
  else if ss = Action.spans .SpinInPlace then some .SpinInPlace
  else none

end Arduino

namespace PureC

open Drive

/-! ## Constants of `Main.c` and of `avr/io.h` (ATmega328P) -/

def OBSTACLE_CM : Int := 20
def DRIVE_PWM : Int := 200
def TURN_90_TIME : Nat := 450
def TURN_180_TIME : Nat := 900

def PB1 : Nat := 1
def PB2 : Nat := 2
def PB3 : Nat := 3
def PB4 : Nat := 4
def PD3 : Nat := 3
def PD4 : Nat := 4
def PD5 : Nat := 5
def PD6 : Nat := 6
def COM1A1 : Nat := 7
def COM1B1 : Nat := 5
def WGM10 : Nat := 0
def WGM12 : Nat := 3
def CS11 : Nat := 1
def CS10 : Nat := 0

/-! ## Register accesses -/

inductive Reg where
  | PORTB
  | PORTD
  | DDRB
  | DDRD
  | OCR1A
  | OCR1B
  | TCCR1A
  | TCCR1B
deriving DecidableEq, Repr

/-- One access to the hardware, in program order: `r = v`, `r |= mask`,
`r &= ~mask`, a read of the echo input `PINB & (1 << PB3)` with the level
read, `ms` rounds of `_delay_ms(1)`, and `_delay_us(us)`. -/
inductive Ev where
  | store (r : Reg) (v : Nat)
  | setBits (r : Reg) (mask : Nat)
  | clearBits (r : Reg) (mask : Nat)
  | readEcho (level : Bool)
  | delay_ms (ms : Nat)
  | delay_us (us : Nat)
deriving DecidableEq, Repr

def pwm_init : List Ev :=
  [.store .TCCR1A ((1 <<< COM1A1) ||| (1 <<< COM1B1) ||| (1 <<< WGM10)),
   .store .TCCR1B ((1 <<< WGM12) ||| (1 <<< CS11) ||| (1 <<< CS10)),
   .store .OCR1A 0,
   .store .OCR1B 0]

def motors_init : List Ev :=
  [.setBits .DDRB ((1 <<< PB1) ||| (1 <<< PB2)),
   .setBits .DDRD ((1 <<< PD3) ||| (1 <<< PD4) ||| (1 <<< PD5) ||| (1 <<< PD6))]
  ++ pwm_init

/-- The cast `(uint8_t) x`. -/
def toUint8 (x : Int) : Nat := (x % 256).toNat

/-- `set_motors(left_speed, right_speed)`; the arguments are `int16_t`
values. -/
def set_motors (left_speed right_speed : Int) : List Ev :=
  let left_speed := if left_speed > 255 then 255 else left_speed
  let left_speed := if left_speed < -255 then -255 else left_speed
  let right_speed := if right_speed > 255 then 255 else right_speed
  let right_speed := if right_speed < -255 then -255 else right_speed
  (if left_speed ≥ 0 then
    [.setBits .PORTD (1 <<< PD3), .clearBits .PORTD (1 <<< PD4),
     .store .OCR1A (toUint8 left_speed)]
   else
    [.clearBits .PORTD (1 <<< PD3), .setBits .PORTD (1 <<< PD4),
     .store .OCR1A (toUint8 (-left_speed))])
  ++
  (if right_speed ≥ 0 then
    [.setBits .PORTD (1 <<< PD5), .clearBits .PORTD (1 <<< PD6),
     .store .OCR1B (toUint8 right_speed)]
   else
    [.clearBits .PORTD (1 <<< PD5), .setBits .PORTD (1 <<< PD6),
     .store .OCR1B (toUint8 (-right_speed))])

def move_forward : List Ev := set_motors DRIVE_PWM DRIVE_PWM

def stop_motors : List Ev := set_motors 0 0

/-- `delay_ms(ms)`: `ms` rounds of `_delay_ms(1)`. -/
def delay_ms (ms : Nat) : List Ev := [.delay_ms ms]

def pivot_right_90 : List Ev :=
  set_motors DRIVE_PWM (-DRIVE_PWM) ++ delay_ms TURN_90_TIME ++ stop_motors

def pivot_left_90 : List Ev :=
  set_motors (-DRIVE_PWM) DRIVE_PWM ++ delay_ms TURN_90_TIME ++ stop_motors

def spin_180 : List Ev :=
  set_motors DRIVE_PWM (-DRIVE_PWM) ++ delay_ms TURN_180_TIME ++ stop_motors

def sensor_init : List Ev :=
  [.setBits .DDRB (1 <<< PB4), .clearBits .DDRB (1 <<< PB3)]

/-! ## Ranging by polling the echo pin

`pin i` is the level the `i`-th read of the echo input finds, counted from
the start of the call of `read_distance_cm`. -/

/-- Outcome of the first loop of `read_distance_cm`: whether it ended on a
high level (`edge`) or by `return 999`, the number of reads made so far and
the accesses made. -/
structure Rise where
  edge : Bool
  polls : Nat
  calls : List Ev
deriving DecidableEq, Repr

/-- The loop `while (!(PINB & (1 << PB3))) { _delay_us(1);
if (++timeout > 20000) return 999; }` with `pos` reads made before and the
counter at `timeout`.  The `uint16_t` counter stays below 20002, so it never
wraps. -/
def waitRise (pin : Nat → Bool) (pos timeout : Nat) : Rise :=
  if pin pos then
    { edge := true, polls := pos + 1, calls := [.readEcho true] }
  else if timeout + 1 > 20000 then
    { edge := false, polls := pos + 1, calls := [.readEcho false, .delay_us 1] }
  else
    let r := waitRise pin (pos + 1) (timeout + 1)
    { r with calls := .readEcho false :: .delay_us 1 :: r.calls }
termination_by 20001 - timeout

/-- Outcome of the second loop: the final `duration` when the loop ended on
a low level, `none` when it ended by `return 999`; the number of reads made
so far and the accesses made. -/
structure Fall where
  duration : Option Nat
  polls : Nat
  calls : List Ev
deriving DecidableEq, Repr

/-- The loop `while (PINB & (1 << PB3)) { _delay_us(1); duration++;
if (duration > 20000) return 999; }` with `pos` reads made before and the
counter at `duration`. -/
def waitFall (pin : Nat → Bool) (pos duration : Nat) : Fall :=
  if pin pos then
    if duration + 1 > 20000 then
      { duration := none, polls := pos + 1, calls := [.readEcho true, .delay_us 1] }
    else
      let r := waitFall pin (pos + 1) (duration + 1)
      { r with calls := .readEcho true :: .delay_us 1 :: r.calls }
  else
    { duration := some duration, polls := pos + 1, calls := [.readEcho false] }
termination_by 20001 - duration

/-- What a call of `read_distance_cm` gives: the returned distance, the
number of reads of the echo input made in each loop, and the accesses
made. -/
structure Reading where
  cm : Int
  risePolls : Nat
  fallPolls : Nat
  calls : List Ev
deriving DecidableEq, Repr

/-- The trigger pulse at the start of `read_distance_cm`. -/
def trigger : List Ev :=
  [.clearBits .PORTB (1 <<< PB4), .delay_us 2,
   .setBits .PORTB (1 <<< PB4), .delay_us 10,
   .clearBits .PORTB (1 <<< PB4)]

/-- `read_distance_cm()` on the echo samples `pin`. -/
def read_distance_cm (pin : Nat → Bool) : Reading :=
  let r := waitRise pin 0 0
  if !r.edge then
    { cm := 999, risePolls := r.polls, fallPolls := 0, calls := trigger ++ r.calls }
  else
    let f := waitFall pin r.polls 0
    match f.duration with
    | none =>
      { cm := 999, risePolls := r.polls, fallPolls := f.polls - r.polls,
        calls := trigger ++ r.calls ++ f.calls }
    | some duration =>
      let cm : Int := ((duration / 58 : Nat) : Int)
      { cm := if cm ≥ 2 ∧ cm ≤ 200 then cm else 999,
        risePolls := r.polls, fallPolls := f.polls - r.polls,
        calls := trigger ++ r.calls ++ f.calls }

/-- `check_right()`: the returned distance and the accesses made; `pin` are
the echo samples its call of `read_distance_cm` sees. -/
def check_right (pin : Nat → Bool) : Int × List Ev :=
  let dist := read_distance_cm pin
  (dist.cm, pivot_right_90 ++ delay_ms 100 ++ dist.calls ++ pivot_left_90 ++ delay_ms 50)

/-- `check_left()`. -/
def check_left (pin : Nat → Bool) : Int × List Ev :=
  let dist := read_distance_cm pin
  (dist.cm, pivot_left_90 ++ delay_ms 100 ++ dist.calls ++ pivot_right_90 ++ delay_ms 50)

/-- One pass of the `while (1)` loop of `main`; `pinF`, `pinR`, `pinL` are
the echo samples seen by the read facing front, by the read inside
`check_right` and by the read inside `check_left` (the last two only when
the call is made). -/
def main_pass (pinF pinR pinL : Nat → Bool) : List Ev :=
  let fwd := read_distance_cm pinF
  (if fwd.cm > OBSTACLE_CM then
    fwd.calls ++ move_forward
  else
    let right_d := check_right pinR
    if right_d.1 > OBSTACLE_CM then
      fwd.calls ++ stop_motors ++ right_d.2 ++ pivot_right_90
    else
      let left_d := check_left pinL
      if left_d.1 > OBSTACLE_CM then
        fwd.calls ++ stop_motors ++ right_d.2 ++ left_d.2 ++ pivot_left_90
      else
        fwd.calls ++ stop_motors ++ right_d.2 ++ left_d.2 ++ spin_180)
  ++ delay_ms 100

/-- The part of `main` before the loop. -/
def main_startup : List Ev :=
  motors_init ++ sensor_init ++ stop_motors ++ delay_ms 1000

/-! ## Motor outputs seen by the driver -/

/-- What drives the motors: the direction bits `PD3`..`PD6` of `PORTD` and
the PWM duties in `OCR1A` (left) and `OCR1B` (right). -/
structure Regs where
  pd3 : Bool
  pd4 : Bool
  pd5 : Bool
  pd6 : Bool
  ocr1a : Nat
  ocr1b : Nat
deriving DecidableEq, Repr

/-- Effect of one access on the motor outputs: `PORTD = v` copies the bits
of `v`, `PORTD |= mask` sets the bits of `mask`, `PORTD &= ~mask` clears
them. -/
def Regs.apply (s : Regs) : Ev → Regs
  | .store .PORTD v =>
      { s with pd3 := v.testBit PD3, pd4 := v.testBit PD4,
               pd5 := v.testBit PD5, pd6 := v.testBit PD6 }
  | .store .OCR1A v => { s with ocr1a := v }
  | .store .OCR1B v => { s with ocr1b := v }
  | .setBits .PORTD mask =>
      { s with pd3 := mask.testBit PD3 || s.pd3, pd4 := mask.testBit PD4 || s.pd4,
               pd5 := mask.testBit PD5 || s.pd5, pd6 := mask.testBit PD6 || s.pd6 }
  | .clearBits .PORTD mask =>
      { s with pd3 := !mask.testBit PD3 && s.pd3, pd4 := !mask.testBit PD4 && s.pd4,
               pd5 := !mask.testBit PD5 && s.pd5, pd6 := !mask.testBit PD6 && s.pd6 }
  | _ => s

/-- Signed drive of the left channel: duty forward (`PD3` high, `PD4` low),
minus the duty backward (`PD3` low, `PD4` high), 0 when both bits agree. -/
def Regs.leftDrive (s : Regs) : Int :=
  if s.pd3 && !s.pd4 then (s.ocr1a : Int)
  else if !s.pd3 && s.pd4 then -(s.ocr1a : Int)
  else 0

/-- Signed drive of the right channel (`PD5`, `PD6`, `OCR1B`). -/
def Regs.rightDrive (s : Regs) : Int :=
  if s.pd5 && !s.pd6 then (s.ocr1b : Int)
  else if !s.pd5 && s.pd6 then -(s.ocr1b : Int)
  else 0

/-- The motor outputs after a reset: all bits low, both duties 0. -/
def resetRegs : Regs :=
  { pd3 := false, pd4 := false, pd5 := false, pd6 := false, ocr1a := 0, ocr1b := 0 }

/-- The motor outputs after a list of accesses. -/
def regsAfter (s : Regs) (es : List Ev) : Regs := es.foldl Regs.apply s

/-- The stretches of time of a list of accesses, with the motor outputs
that hold during each. -/
def timeline : Regs → List Ev → List Span
  | _, [] => []
  | s, .delay_ms ms :: es => .wait s.leftDrive s.rightDrive (1000 * ms) :: timeline s es
  | s, .delay_us us :: es => .wait s.leftDrive s.rightDrive us :: timeline s es
  | s, .store r v :: es => timeline (s.apply (.store r v)) es
  | s, .setBits r m :: es => timeline (s.apply (.setBits r m)) es
  | s, .clearBits r m :: es => timeline (s.apply (.clearBits r m)) es
  | s, .readEcho _ :: es => timeline s es

/-- Accesses that belong to ranging: the trigger bit in `PORTB`, reads of
the echo input and microsecond delays. -/
def Ev.ranging : Ev → Bool
  | .setBits .PORTB _ => true
  | .clearBits .PORTB _ => true
  | .readEcho _ => true
  | .delay_us _ => true
  | _ => false

/-- Number of reads of the echo input in a list of accesses. -/
def echoReads : List Ev → Nat
  | [] => 0
  | .readEcho _ :: es => echoReads es + 1
  | _ :: es => echoReads es

/-- The four motor commands a pass of the main loop ends with. -/
inductive Command where
  | Forward
  | PivotRight
  | PivotLeft
  | Spin
deriving DecidableEq, Repr

/-- What each command, followed by the `delay_ms(100)` that ends the pass,
is on the motors: forward keeps driving through the delay, the pivots and
the spin turn for their time and are stopped through the delay. -/
def Command.spans : Command → List Span
  | .Forward => [.wait 200 200 100000]
  | .PivotRight => [.wait 200 (-200) 450000, .wait 0 0 100000]
  | .PivotLeft => [.wait (-200) 200 450000, .wait 0 0 100000]
  | .Spin => [.wait 200 (-200) 900000, .wait 0 0 100000]

/-- The last `k` stretches of a timeline. -/
def lastSpans (k : Nat) (ss : List Span) : List Span := (ss.reverse.take k).reverse

/-- The command a timeline ends with, when it ends with one. -/
def commandOf (ss : List Span) : Option Command :=
  if lastSpans 1 ss = Command.spans .Forward then some .Forward
  else if lastSpans 2 ss = Command.spans .PivotRight then some .PivotRight
  else if lastSpans 2 ss = Command.spans .PivotLeft then some .PivotLeft
  else if lastSpans 2 ss = Command.spans .Spin then some .Spin
  else none

/-- The stretches of `check_right()` around its ranging: quarter pivot to
the right and settle, the ranging, quarter pivot back to the left and
settle. -/
def lookRightSpans (ranging : List Span) : List Span :=
  [.wait 200 (-200) 450000, .wait 0 0 100000] ++ ranging ++
    [.wait (-200) 200 450000, .wait 0 0 50000]

/-- The stretches of `check_left()` around its ranging: quarter pivot to the
left and settle, the ranging, quarter pivot back to the right and settle. -/
def lookLeftSpans (ranging : List Span) : List Span :=
  [.wait (-200) 200 450000, .wait 0 0 100000] ++ ranging ++
    [.wait 200 (-200) 450000, .wait 0 0 50000]

/-- Priority order of the specification: forward, left, right, spin. -/
def specPriority (front left right : Bool) : Command :=
  if front then .Forward
  else if left then .PivotLeft
  else if right then .PivotRight
  else .Spin

/-- Echo samples of a pulse that is high from the first read on and stays
high for `d` further reads. -/
def echoOf (d : Nat) : Nat → Bool := fun i => decide (i ≤ d)

/-- Echo samples of an input stuck at one level. -/
def stuckAt (level : Bool) : Nat → Bool := fun _ => level

end PureC

namespace Drive

/-! ## Allowed motor outputs -/

/-- The pairs of drives the specification allows: both sides stopped, both
sides forward at the same speed, or the two sides with opposite signs at
the same speed. -/
def okDrive (left right : Int) : Bool :=
  decide ((left = 0 ∧ right = 0) ∨ (0 < left ∧ right = left) ∨ (left ≠ 0 ∧ right = -left))

/-- Whether the motor outputs during a stretch are allowed. -/
def Span.allowed : Span → Bool
  | .wait l r _ => okDrive l r
  | .echo l r => okDrive l r

end Drive

namespace Arduino

open Drive

/-! ## Direction memory, entry by entry -/

/-- What `directionAvailable` does with the entry `b = dirBlock[idx]`: the
returned flag and the entry afterwards. -/
def entryStep (b : DirBlock) (now : Nat) (isOpenNow : Bool) : Bool × DirBlock :=
  if !isOpenNow then
    (false, { blocked := true, until_ms := (now + BLOCK_TIME_MS) % ULONG_SIZE })
  else if b.blocked then
    if now < b.until_ms then
      (false, b)
    else
      (true, { b with blocked := false })
  else
    (true, b)

/-- The distance measured for a heading: `frontDist`, `leftDist`,
`rightDist` of `decideAndMove`. -/
def Scan.dist (s : Scan) : DirIndex → Int
  | .DIR_FWD => s.front
  | .DIR_LEFT => s.left
  | .DIR_RIGHT => s.right

/-- Store of one of the flags `frontOK`, `leftOK`, `rightOK`. -/
def Avail.put (a : Avail) (idx : DirIndex) (v : Bool) : Avail :=
  match idx with
  | .DIR_FWD => { a with frontOK := v }
  | .DIR_LEFT => { a with leftOK := v }
  | .DIR_RIGHT => { a with rightOK := v }

/-- The calls `directionAvailable(idx, isOpen idx)` for the headings of
`order`, one after the other, all with the clock value `now`: the flags
returned and the memory afterwards. -/
def callsInOrder (mem : DirMem) (now : Nat) (isOpen : DirIndex → Bool)
    (order : List DirIndex) : Avail × DirMem :=
  order.foldl
    (fun acc idx =>
      ((acc.1.put idx (directionAvailable acc.2 now idx (isOpen idx)).1),
        (directionAvailable acc.2 now idx (isOpen idx)).2))
    ({ frontOK := false, leftOK := false, rightOK := false }, mem)

/-- The six orders of the three headings. -/
def headingOrders : List (List DirIndex) :=
  [[.DIR_FWD, .DIR_LEFT, .DIR_RIGHT], [.DIR_FWD, .DIR_RIGHT, .DIR_LEFT],
   [.DIR_LEFT, .DIR_FWD, .DIR_RIGHT], [.DIR_LEFT, .DIR_RIGHT, .DIR_FWD],
   [.DIR_RIGHT, .DIR_FWD, .DIR_LEFT], [.DIR_RIGHT, .DIR_LEFT, .DIR_FWD]]

/-- Two entries agree when their `blocked` flags are equal and, if they are
blocked, their `until_ms` are equal. -/
def entryAgree (a b : DirBlock) : Bool :=
  a.blocked == b.blocked && (!a.blocked || a.until_ms == b.until_ms)

/-- Two memories agree when they differ at most in `until_ms` of entries
that are not blocked. -/
def memAgree (m1 m2 : DirMem) : Bool :=
  entryAgree m1.fwd m2.fwd && entryAgree m1.left m2.left && entryAgree m1.right m2.right

/-! ## The program as a whole -/

/-- The motor pins after a reset: all inputs low, both duties 0. -/
def resetPins : Pins :=
  { in1 := false, in2 := false, in3 := false, in4 := false, ena := 0, enb := 0 }

/-- What the hardware gives back during one call of `decideAndMove`: the
three echoes and the three clock values. -/
structure CycleInput where
  echoF : Nat
  echoL : Nat
  echoR : Nat
  t1 : Nat
  t2 : Nat
  t3 : Nat
deriving DecidableEq, Repr

/-- `setup()` makes no call that drives the motors (`pinMode`,
`Serial.begin`). -/
def setup : List Ev := []

/-- `setup()` followed by `n` rounds of `loop()`, each one call of
`decideAndMove()`: the memory afterwards and all calls made. -/
def run (inputs : Nat → CycleInput) : Nat → DirMem × List Ev
  | 0 => (dirBlock, setup)
  | n + 1 =>
    let before := run inputs n
    let c := inputs n
    let cycle := decideAndMove before.1 c.echoF c.echoL c.echoR c.t1 c.t2 c.t3
    (cycle.1, before.2 ++ cycle.2)

end Arduino

namespace PureC

open Drive

/-- The values stored to the register `reg` by a list of accesses, in
order. -/
def storesTo (reg : Reg) : List Ev → List Nat
  | [] => []
  | .store r v :: es => if r = reg then v :: storesTo reg es else storesTo reg es
  | _ :: es => storesTo reg es

/-! ## The program as a whole -/

/-- The echo samples of one pass of the main loop: those seen by the read
facing front, by `check_right` and by `check_left`. -/
structure PassInput where
  pinF : Nat → Bool
  pinR : Nat → Bool
  pinL : Nat → Bool

/-- The part of `main` before the loop followed by `n` passes of the
loop. -/
def main_run (inputs : Nat → PassInput) : Nat → List Ev
  | 0 => main_startup
  | n + 1 =>
    main_run inputs n ++ main_pass (inputs n).pinF (inputs n).pinR (inputs n).pinL

end PureC

/-! ## Theorems -/

namespace Arduino

open Drive

theorem get_set_same (m : DirMem) (i : DirIndex) (b : DirBlock) :
    (m.set i b).get i = b := by
  cases i <;> rfl

theorem get_set_other (m : DirMem) (i j : DirIndex) (b : DirBlock) (h : j ≠ i) :
    (m.set i b).get j = m.get j := by
  cases i <;> cases j <;> first | rfl | exact absurd rfl h

/-- A closed reading: for every heading, every prior memory and every clock
value `t`, `directionAvailable(idx, false)` returns `false` and leaves
`dirBlock[idx]` with `blocked = true` and `until_ms` equal to the
`unsigned long` sum `t + BLOCK_TIME_MS`, where `BLOCK_TIME_MS = 10000`; the
sum is `t + 10000` itself for every `t` up to `2 ^ 32 - 10001`. -/
theorem closed_reading_blocks (mem : DirMem) (t : Nat) (idx : DirIndex) :
    (directionAvailable mem t idx false).1 = false ∧
    ((directionAvailable mem t idx false).2.get idx).blocked = true ∧
    ((directionAvailable mem t idx false).2.get idx).until_ms
      = (t + BLOCK_TIME_MS) % 2 ^ 32 ∧
    BLOCK_TIME_MS = 10000 ∧
    (t + 10000 < 2 ^ 32 →
      ((directionAvailable mem t idx false).2.get idx).until_ms = t + 10000) := by
  have h : directionAvailable mem t idx false
      = (false, mem.set idx { blocked := true, until_ms := (t + BLOCK_TIME_MS) % ULONG_SIZE }) := by
    simp [directionAvailable]
  rw [h]
  refine ⟨rfl, ?_, ?_, rfl, ?_⟩
  · simp [get_set_same]
  · simp [get_set_same, ULONG_SIZE]
  · intro ht
    simp [get_set_same, ULONG_SIZE, BLOCK_TIME_MS]
    omega

/-! ### C2 -/

/-- After a closed reading at `t`, an open reading at `t'` is answered by
comparing `t'` with the stored, wrapped deadline. -/
theorem open_after_closed (mem : DirMem) (t t' : Nat) (h : DirIndex) :
    (directionAvailable (directionAvailable mem t h false).2 t' h true).1
      = decide (¬ t' < (t + BLOCK_TIME_MS) % ULONG_SIZE) := by
  have h1 : directionAvailable mem t h false
      = (false, mem.set h { blocked := true, until_ms := (t + BLOCK_TIME_MS) % ULONG_SIZE }) := by
    simp [directionAvailable]
  rw [h1]
  by_cases hlt : t' < (t + BLOCK_TIME_MS) % ULONG_SIZE
  · simp [directionAvailable, get_set_same, hlt]
  · simp [directionAvailable, get_set_same, hlt]

/-- The block window where the deadline does not wrap: for `t + 10000 < 2 ^ 32`
and `t ≤ t'`, the open reading at `t'` is refused inside `[t, t + 10000)` and
accepted from `t + 10000` on. -/
theorem block_window_without_wrap (mem : DirMem) (t t' : Nat) (h : DirIndex)
    (hw : t + 10000 < 2 ^ 32) :
    (t' < t + 10000 →
      (directionAvailable (directionAvailable mem t h false).2 t' h true).1 = false) ∧
    (t + 10000 ≤ t' →
      (directionAvailable (directionAvailable mem t h false).2 t' h true).1 = true) := by
  have hm : (t + BLOCK_TIME_MS) % ULONG_SIZE = t + 10000 := by
    simp only [BLOCK_TIME_MS, ULONG_SIZE]
    exact Nat.mod_eq_of_lt hw
  rw [open_after_closed, hm]
  constructor
  · intro hlt
    simp [hlt]
  · intro hge
    simp [hge]

theorem block_window_without_wrap_witness :
    (directionAvailable (directionAvailable dirBlock 0 .DIR_FWD false).2 5000 .DIR_FWD true).1
      = false ∧
    (directionAvailable (directionAvailable dirBlock 0 .DIR_FWD false).2 10001 .DIR_FWD true).1
      = true :=
  ⟨(block_window_without_wrap dirBlock 0 5000 .DIR_FWD (by decide)).1 (by decide),
   (block_window_without_wrap dirBlock 0 10001 .DIR_FWD (by decide)).2 (by decide)⟩

/-- The block window where the deadline wraps: for `t < 2 ^ 32` with
`2 ^ 32 ≤ t + 10000`, every open reading at `t' ≥ t` is accepted. -/
theorem block_window_with_wrap (mem : DirMem) (t t' : Nat) (h : DirIndex)
    (ht : t < 2 ^ 32) (hw : 2 ^ 32 ≤ t + 10000) (hle : t ≤ t') :
    (directionAvailable (directionAvailable mem t h false).2 t' h true).1 = true := by
  rw [open_after_closed]
  simp only [BLOCK_TIME_MS, ULONG_SIZE, decide_eq_true_eq]
  omega

theorem block_window_with_wrap_witness :
    (directionAvailable (directionAvailable dirBlock 4294967295 .DIR_LEFT false).2
      4294967295 .DIR_LEFT true).1 = true :=
  block_window_with_wrap dirBlock 4294967295 4294967295 .DIR_LEFT
    (by decide) (by decide) (by decide)

/-- C2: the block window fails where the deadline wraps.  A closed reading
at `t = 2 ^ 32 - 5000` stores the deadline `5000`; the open reading one
millisecond later, at `t' = t + 1`, inside `[t, t + 10000)` and below
`2 ^ 32`, is answered `true`, and the heading is unblocked. -/
theorem C2_block_window_lost_at_wrap :
    (4294962296 : Nat) = 2 ^ 32 - 5000 ∧
    4294962296 ≤ 4294962297 ∧ 4294962297 < 4294962296 + 10000 ∧ 4294962297 < 2 ^ 32 ∧
    ((directionAvailable dirBlock 4294962296 .DIR_FWD false).2.get .DIR_FWD)
      = { blocked := true, until_ms := 5000 } ∧
    (directionAvailable (directionAvailable dirBlock 4294962296 .DIR_FWD false).2
      4294962297 .DIR_FWD true).1 = true ∧
    ((directionAvailable (directionAvailable dirBlock 4294962296 .DIR_FWD false).2
      4294962297 .DIR_FWD true).2.get .DIR_FWD).blocked = false := by
  decide

/-! ### C3, C4 -/

theorem timeline_append (p : Pins) (xs ys : List Ev) :
    timeline p (xs ++ ys) = timeline p xs ++ timeline (pinsAfter p xs) ys := by
  induction xs generalizing p with
  | nil => rfl
  | cons e es ih =>
    cases e <;> simp [timeline, pinsAfter, ih, List.foldl] <;> rfl

theorem move_timeline (a : Avail) (p : Pins) :
    timeline p (decideAndMove_move a)
      = (selectByPriority a.frontOK a.leftOK a.rightOK).spans := by
  obtain ⟨f, l, r⟩ := a
  cases f <;> cases l <;> cases r <;> rfl

theorem directionAvailable_frame (mem : DirMem) (now : Nat) (i j : DirIndex) (o : Bool)
    (h : j ≠ i) : (directionAvailable mem now i o).2.get j = mem.get j := by
  unfold directionAvailable
  cases o
  · simp [get_set_other _ _ _ _ h]
  · by_cases hb : (mem.get i).blocked = true
    · by_cases hlt : now < (mem.get i).until_ms
      · simp [hb, hlt]
      · simp [hb, hlt, get_set_other _ _ _ _ h]
    · simp [hb]

theorem directionAvailable_unblocked (mem : DirMem) (now : Nat) (i : DirIndex) (o : Bool)
    (h : (mem.get i).blocked = false) : (directionAvailable mem now i o).1 = o := by
  unfold directionAvailable
  cases o <;> simp [h]

theorem avail_fresh (s : Scan) (t1 t2 t3 : Nat) :
    (decideAndMove_avail dirBlock s t1 t2 t3).1
      = { frontOK := decide (s.front > 20), leftOK := decide (s.left > 20),
          rightOK := decide (s.right > 20) } := by
  have hf : (directionAvailable dirBlock t1 .DIR_FWD (isOpenAt OBSTACLE_CM s.front)).1
      = isOpenAt OBSTACLE_CM s.front :=
    directionAvailable_unblocked _ _ _ _ rfl
  have hl : (directionAvailable
      (directionAvailable dirBlock t1 .DIR_FWD (isOpenAt OBSTACLE_CM s.front)).2
      t2 .DIR_LEFT (isOpenAt OBSTACLE_CM s.left)).1 = isOpenAt OBSTACLE_CM s.left := by
    apply directionAvailable_unblocked
    rw [directionAvailable_frame _ _ _ _ _ (by decide)]
    rfl
  have hr : (directionAvailable (directionAvailable
      (directionAvailable dirBlock t1 .DIR_FWD (isOpenAt OBSTACLE_CM s.front)).2
      t2 .DIR_LEFT (isOpenAt OBSTACLE_CM s.left)).2 t3 .DIR_RIGHT
      (isOpenAt OBSTACLE_CM s.right)).1 = isOpenAt OBSTACLE_CM s.right := by
    apply directionAvailable_unblocked
    rw [directionAvailable_frame _ _ _ _ _ (by decide),
      directionAvailable_frame _ _ _ _ _ (by decide)]
    rfl
  simp only [decideAndMove_avail, hf, hl, hr]
  rfl

/-- C3: in `decideAndMove`, for every memory, every three echoes and clock
values and every state of the motor pins, what the motors do after the scan
is the action the priority law picks from the flags `frontOK`, `leftOK`,
`rightOK`: forward step if `frontOK`, else left turn then forward step if
`leftOK`, else right turn then forward step if `rightOK`, else the spin.
That holds for each of the 8 values of the flags, each of which occurs; the
four actions differ on the motors, so exactly one is executed. -/
theorem C3_priority_law (mem : DirMem) (echoF echoL echoR t1 t2 t3 : Nat) (p : Pins) :
    timeline p (decideAndMove mem echoF echoL echoR t1 t2 t3).2
      = timeline p (scanDirections echoF echoL echoR).2 ++
        (selectByPriority
          (decideAndMove_avail mem (scanDirections echoF echoL echoR).1 t1 t2 t3).1.frontOK
          (decideAndMove_avail mem (scanDirections echoF echoL echoR).1 t1 t2 t3).1.leftOK
          (decideAndMove_avail mem (scanDirections echoF echoL echoR).1 t1 t2 t3).1.rightOK).spans ∧
    (∀ f l r : Bool,
      timeline p (decideAndMove_move { frontOK := f, leftOK := l, rightOK := r })
        = (selectByPriority f l r).spans ∧
      actionOf (timeline p (decideAndMove_move { frontOK := f, leftOK := l, rightOK := r }))
        = some (selectByPriority f l r) ∧
      selectByPriority f l r
        = (if f then Action.MoveForward else if l then Action.TurnThenMoveLeft
           else if r then Action.TurnThenMoveRight else Action.SpinInPlace) ∧
      ∃ s : Scan, (decideAndMove_avail dirBlock s t1 t2 t3).1
        = { frontOK := f, leftOK := l, rightOK := r }) ∧
    Function.Injective Action.spans := by
  refine ⟨?_, ?_, ?_⟩
  · simp only [decideAndMove]
    rw [timeline_append, move_timeline]
  · intro f l r
    refine ⟨move_timeline _ p, ?_, rfl, ?_⟩
    · rw [move_timeline]
      cases f <;> cases l <;> cases r <;> decide
    · refine ⟨{ front := if f then 50 else 10, left := if l then 50 else 10,
                right := if r then 50 else 10 }, ?_⟩
      rw [avail_fresh]
      cases f <;> cases l <;> cases r <;> decide
  · intro x y h
    cases x <;> cases y <;> first | rfl | exact absurd h (by decide)

/-- C4: from the initial memory, for every three distances and every clock
values, `decideAndMove` moves forward if `front > 20`, else turns left then
moves forward if `left > 20`, else turns right then moves forward if
`right > 20`, else spins; so (15, 50, 50) gives the left turn, (15, 10, 50)
the right turn and (15, 10, 10) the spin.  The same holds of the whole
function on the distances its scan measures. -/
theorem C4_fresh_memory_decision (s : Scan) (echoF echoL echoR t1 t2 t3 : Nat) (p : Pins) :
    (decideAndMove_avail dirBlock s t1 t2 t3).1
      = { frontOK := decide (s.front > 20), leftOK := decide (s.left > 20),
          rightOK := decide (s.right > 20) } ∧
    actionOf (timeline p (decideAndMove_move (decideAndMove_avail dirBlock s t1 t2 t3).1))
      = some (if s.front > 20 then Action.MoveForward
              else if s.left > 20 then Action.TurnThenMoveLeft
              else if s.right > 20 then Action.TurnThenMoveRight
              else Action.SpinInPlace) ∧
    timeline p (decideAndMove dirBlock echoF echoL echoR t1 t2 t3).2
      = timeline p (scanDirections echoF echoL echoR).2 ++
        (if (scanDirections echoF echoL echoR).1.front > 20 then Action.MoveForward
         else if (scanDirections echoF echoL echoR).1.left > 20 then Action.TurnThenMoveLeft
         else if (scanDirections echoF echoL echoR).1.right > 20 then Action.TurnThenMoveRight
         else Action.SpinInPlace).spans ∧
    actionOf (timeline p (decideAndMove_move
        (decideAndMove_avail dirBlock { front := 15, left := 50, right := 50 } t1 t2 t3).1))
      = some Action.TurnThenMoveLeft ∧
    actionOf (timeline p (decideAndMove_move
        (decideAndMove_avail dirBlock { front := 15, left := 10, right := 50 } t1 t2 t3).1))
      = some Action.TurnThenMoveRight ∧
    actionOf (timeline p (decideAndMove_move
        (decideAndMove_avail dirBlock { front := 15, left := 10, right := 10 } t1 t2 t3).1))
      = some Action.SpinInPlace := by
  have key : ∀ (q : Pins) (s : Scan),
      timeline q (decideAndMove_move (decideAndMove_avail dirBlock s t1 t2 t3).1)
        = (if s.front > 20 then Action.MoveForward
           else if s.left > 20 then Action.TurnThenMoveLeft
           else if s.right > 20 then Action.TurnThenMoveRight
           else Action.SpinInPlace).spans := by
    intro q s
    rw [move_timeline, avail_fresh]
    simp only [selectByPriority, decide_eq_true_eq]
  have act : ∀ a : Action, actionOf a.spans = some a := by
    intro a
    cases a <;> decide
  refine ⟨avail_fresh s t1 t2 t3, ?_, ?_, ?_, ?_, ?_⟩
  · rw [key, act]
  · simp only [decideAndMove]
    rw [timeline_append, key]
  · rw [key, act]
    rfl
  · rw [key, act]
    rfl
  · rw [key, act]
    rfl

theorem closed_reading_blocks_witness :
    5000 + 10000 < 2 ^ 32 ∧
    ((directionAvailable dirBlock 5000 .DIR_LEFT false).2.get .DIR_LEFT).until_ms
      = 5000 + 10000 :=
  ⟨by decide, (closed_reading_blocks dirBlock 5000 .DIR_LEFT).2.2.2.2 (by decide)⟩

end Arduino

namespace PureC

open Drive

/-! ### The two polling loops of `read_distance_cm` -/

theorem waitRise_low (pin : Nat → Bool) :
    ∀ (k pos timeout : Nat), timeout + k = 20000 →
      (∀ i, i ≤ k → pin (pos + i) = false) →
      (waitRise pin pos timeout).edge = false ∧
      (waitRise pin pos timeout).polls = pos + k + 1 := by
  intro k
  induction k with
  | zero =>
    intro pos timeout ht hl
    have h0 : pin pos = false := by simpa using hl 0 (Nat.le_refl 0)
    have ht0 : timeout + 1 > 20000 := by omega
    rw [waitRise]
    simp [h0, ht0]
  | succ k ih =>
    intro pos timeout ht hl
    have h0 : pin pos = false := by simpa using hl 0 (Nat.zero_le _)
    have ht0 : ¬ (timeout + 1 > 20000) := by omega
    have hrec := ih (pos + 1) (timeout + 1) (by omega) (by
      intro i hi
      have := hl (i + 1) (by omega)
      rwa [show pos + 1 + i = pos + (i + 1) by omega])
    rw [waitRise]
    simp only [h0, ht0, if_false, Bool.false_eq_true]
    refine ⟨hrec.1, ?_⟩
    rw [hrec.2]
    omega

theorem waitRise_edge (pin : Nat → Bool) :
    ∀ (n pos timeout : Nat), timeout + n ≤ 20000 →
      (∀ i, i < n → pin (pos + i) = false) → pin (pos + n) = true →
      (waitRise pin pos timeout).edge = true ∧
      (waitRise pin pos timeout).polls = pos + n + 1 := by
  intro n
  induction n with
  | zero =>
    intro pos timeout _ _ hh
    have h0 : pin pos = true := by simpa using hh
    rw [waitRise]
    simp [h0]
  | succ n ih =>
    intro pos timeout ht hl hh
    have h0 : pin pos = false := by simpa using hl 0 (Nat.succ_pos _)
    have ht0 : ¬ (timeout + 1 > 20000) := by omega
    have hrec := ih (pos + 1) (timeout + 1) (by omega) (by
      intro i hi
      have := hl (i + 1) (by omega)
      rwa [show pos + 1 + i = pos + (i + 1) by omega])
      (by rwa [show pos + 1 + n = pos + (n + 1) by omega])
    rw [waitRise]
    simp only [h0, ht0, if_false, Bool.false_eq_true]
    refine ⟨hrec.1, ?_⟩
    rw [hrec.2]
    omega

theorem waitFall_high (pin : Nat → Bool) :
    ∀ (k pos duration : Nat), duration + k = 20000 →
      (∀ i, i ≤ k → pin (pos + i) = true) →
      (waitFall pin pos duration).duration = none ∧
      (waitFall pin pos duration).polls = pos + k + 1 := by
  intro k
  induction k with
  | zero =>
    intro pos duration ht hl
    have h0 : pin pos = true := by simpa using hl 0 (Nat.le_refl 0)
    have ht0 : duration + 1 > 20000 := by omega
    rw [waitFall]
    simp [h0, ht0]
  | succ k ih =>
    intro pos duration ht hl
    have h0 : pin pos = true := by simpa using hl 0 (Nat.zero_le _)
    have ht0 : ¬ (duration + 1 > 20000) := by omega
    have hrec := ih (pos + 1) (duration + 1) (by omega) (by
      intro i hi
      have := hl (i + 1) (by omega)
      rwa [show pos + 1 + i = pos + (i + 1) by omega])
    rw [waitFall]
    simp only [h0, ht0, if_true, if_false]
    refine ⟨hrec.1, ?_⟩
    rw [hrec.2]
    omega

theorem waitFall_low (pin : Nat → Bool) :
    ∀ (n pos duration : Nat), duration + n ≤ 20000 →
      (∀ i, i < n → pin (pos + i) = true) → pin (pos + n) = false →
      (waitFall pin pos duration).duration = some (duration + n) ∧
      (waitFall pin pos duration).polls = pos + n + 1 := by
  intro n
  induction n with
  | zero =>
    intro pos duration _ _ hh
    have h0 : pin pos = false := by simpa using hh
    rw [waitFall]
    simp [h0]
  | succ n ih =>
    intro pos duration ht hl hh
    have h0 : pin pos = true := by simpa using hl 0 (Nat.succ_pos _)
    have ht0 : ¬ (duration + 1 > 20000) := by omega
    have hrec := ih (pos + 1) (duration + 1) (by omega) (by
      intro i hi
      have := hl (i + 1) (by omega)
      rwa [show pos + 1 + i = pos + (i + 1) by omega])
      (by rwa [show pos + 1 + n = pos + (n + 1) by omega])
    rw [waitFall]
    simp only [h0, ht0, if_true, if_false]
    refine ⟨?_, ?_⟩
    · rw [hrec.1]
      congr 1
      omega
    · rw [hrec.2]
      omega

theorem waitRise_polls_bound (pin : Nat → Bool) :
    ∀ (k pos timeout : Nat), timeout + k = 20000 →
      pos + 1 ≤ (waitRise pin pos timeout).polls ∧
      (waitRise pin pos timeout).polls ≤ pos + k + 1 := by
  intro k
  induction k with
  | zero =>
    intro pos timeout ht
    have ht0 : timeout + 1 > 20000 := by omega
    rw [waitRise]
    by_cases h0 : pin pos = true
    · simp [h0]
    · simp [h0, ht0]
  | succ k ih =>
    intro pos timeout ht
    have ht0 : ¬ (timeout + 1 > 20000) := by omega
    have hrec := ih (pos + 1) (timeout + 1) (by omega)
    rw [waitRise]
    by_cases h0 : pin pos = true
    · simp [h0]
    · have h0f : pin pos = false := by simpa using h0
      simp only [h0f, ht0, if_false, Bool.false_eq_true]
      constructor <;> omega

theorem waitFall_polls_bound (pin : Nat → Bool) :
    ∀ (k pos duration : Nat), duration + k = 20000 →
      pos + 1 ≤ (waitFall pin pos duration).polls ∧
      (waitFall pin pos duration).polls ≤ pos + k + 1 := by
  intro k
  induction k with
  | zero =>
    intro pos duration ht
    have ht0 : duration + 1 > 20000 := by omega
    rw [waitFall]
    by_cases h0 : pin pos = true
    · simp [h0, ht0]
    · simp [h0]
  | succ k ih =>
    intro pos duration ht
    have ht0 : ¬ (duration + 1 > 20000) := by omega
    have hrec := ih (pos + 1) (duration + 1) (by omega)
    rw [waitFall]
    by_cases h0 : pin pos = true
    · simp only [h0, ht0, if_true, if_false]
      constructor <;> omega
    · simp [h0]

/-- The counter of the second loop never exceeds 20000 on a normal exit. -/
theorem waitFall_duration_le (pin : Nat → Bool) :
    ∀ (k pos duration d : Nat), duration + k = 20000 →
      (waitFall pin pos duration).duration = some d → d ≤ 20000 := by
  intro k
  induction k with
  | zero =>
    intro pos duration d ht
    have ht0 : duration + 1 > 20000 := by omega
    rw [waitFall]
    by_cases h0 : pin pos = true
    · simp [h0, ht0]
    · simp [h0]
      intro hd
      omega
  | succ k ih =>
    intro pos duration d ht
    have ht0 : ¬ (duration + 1 > 20000) := by omega
    rw [waitFall]
    by_cases h0 : pin pos = true
    · simp only [h0, ht0, if_true, if_false]
      exact ih (pos + 1) (duration + 1) d (by omega)
    · simp [h0]
      intro hd
      omega

/-! ### `read_distance_cm` -/

theorem read_range (pin : Nat → Bool) :
    (read_distance_cm pin).cm = 999 ∨
    (2 ≤ (read_distance_cm pin).cm ∧ (read_distance_cm pin).cm ≤ 200) := by
  unfold read_distance_cm
  by_cases he : (waitRise pin 0 0).edge = true
  · simp only [he, Bool.not_true, Bool.false_eq_true, if_false]
    cases hd : (waitFall pin (waitRise pin 0 0).polls 0).duration with
    | none => left; rfl
    | some d =>
      simp only
      by_cases hc : ((d / 58 : Nat) : Int) ≥ 2 ∧ ((d / 58 : Nat) : Int) ≤ 200
      · right
        rw [if_pos hc]
        exact hc
      · left
        rw [if_neg hc]
  · left
    simp [he]

theorem read_no_edge (pin : Nat → Bool) (h : ∀ i, i ≤ 20000 → pin i = false) :
    (read_distance_cm pin).cm = 999 ∧ (read_distance_cm pin).risePolls = 20001 ∧
    (read_distance_cm pin).fallPolls = 0 := by
  have hr := waitRise_low pin 20000 0 0 rfl (by simpa using h)
  unfold read_distance_cm
  simp [hr.1, hr.2]

theorem read_echo_long (pin : Nat → Bool) (n : Nat) (hn : n ≤ 20000)
    (hl : ∀ i, i < n → pin i = false) (hh : pin n = true)
    (hlong : ∀ j, j ≤ 20000 → pin (n + 1 + j) = true) :
    (read_distance_cm pin).cm = 999 ∧ (read_distance_cm pin).risePolls = n + 1 ∧
    (read_distance_cm pin).fallPolls = 20001 := by
  have hr := waitRise_edge pin n 0 0 (by omega) (by simpa using hl) (by simpa using hh)
  have hf := waitFall_high pin 20000 (n + 1) 0 rfl hlong
  simp only [Nat.zero_add] at hr
  unfold read_distance_cm
  simp only [hr.1, hr.2, Bool.not_true, Bool.false_eq_true, if_false, hf.1, hf.2]
  simp

theorem read_echo (pin : Nat → Bool) (n d : Nat) (hn : n ≤ 20000)
    (hl : ∀ i, i < n → pin i = false) (hh : pin n = true) (hd : d ≤ 20000)
    (hhigh : ∀ j, j < d → pin (n + 1 + j) = true) (hlow : pin (n + 1 + d) = false) :
    (read_distance_cm pin).cm
      = (if 2 ≤ d / 58 ∧ d / 58 ≤ 200 then ((d / 58 : Nat) : Int) else 999) ∧
    (read_distance_cm pin).risePolls = n + 1 ∧
    (read_distance_cm pin).fallPolls = d + 1 := by
  have hr := waitRise_edge pin n 0 0 (by omega) (by simpa using hl) (by simpa using hh)
  have hf := waitFall_low pin d (n + 1) 0 (by omega) hhigh hlow
  simp only [Nat.zero_add] at hr hf
  unfold read_distance_cm
  simp only [hr.1, hr.2, Bool.not_true, Bool.false_eq_true, if_false, hf.1, hf.2]
  refine ⟨?_, by simp, ?_⟩
  · by_cases hc : 2 ≤ d / 58 ∧ d / 58 ≤ 200
    · rw [if_pos hc, if_pos]
      constructor
      · exact_mod_cast hc.1
      · exact_mod_cast hc.2
    · rw [if_neg hc, if_neg]
      intro hc2
      apply hc
      constructor
      · exact_mod_cast hc2.1
      · exact_mod_cast hc2.2
  · simp
    omega

/-- The reading of an echo that is high at the first read and for `d` more
reads. -/
theorem read_echoOf (d : Nat) (hd : d ≤ 20000) :
    (read_distance_cm (echoOf d)).cm
      = (if 2 ≤ d / 58 ∧ d / 58 ≤ 200 then ((d / 58 : Nat) : Int) else 999) :=
  (read_echo (echoOf d) 0 d (by omega) (by intro i hi; omega) (by simp [echoOf]) hd
    (by intro j hj; simp [echoOf]; omega) (by simp [echoOf])).1

theorem read_polls_bound (pin : Nat → Bool) :
    1 ≤ (read_distance_cm pin).risePolls ∧ (read_distance_cm pin).risePolls ≤ 20001 ∧
    (read_distance_cm pin).fallPolls ≤ 20001 := by
  have hr := waitRise_polls_bound pin 20000 0 0 rfl
  have hf := waitFall_polls_bound pin 20000 (waitRise pin 0 0).polls 0 rfl
  unfold read_distance_cm
  by_cases he : (waitRise pin 0 0).edge = true
  · simp only [he, Bool.not_true, Bool.false_eq_true, if_false]
    cases hd : (waitFall pin (waitRise pin 0 0).polls 0).duration with
    | none => simp only; omega
    | some d => simp only; omega
  · have hef : (waitRise pin 0 0).edge = false := by simpa using he
    simp only [hef, Bool.not_false, if_true]
    omega

/-! ### Motor outputs of the pure-C variant -/

theorem avr_timeline_append (s : Regs) (xs ys : List Ev) :
    timeline s (xs ++ ys) = timeline s xs ++ timeline (regsAfter s xs) ys := by
  induction xs generalizing s with
  | nil => rfl
  | cons e es ih =>
    cases e <;> simp [timeline, regsAfter, ih, List.foldl] <;> rfl

theorem commandOf_append (pre : List Span) (c : Command) :
    commandOf (pre ++ c.spans) = some c := by
  cases c <;>
    simp [commandOf, lastSpans, Command.spans, List.reverse_append]

theorem forward_timeline (s : Regs) :
    timeline s (move_forward ++ delay_ms 100) = Command.spans .Forward := rfl

theorem pivot_right_timeline (s : Regs) :
    timeline s (pivot_right_90 ++ delay_ms 100) = Command.spans .PivotRight := rfl

theorem pivot_left_timeline (s : Regs) :
    timeline s (pivot_left_90 ++ delay_ms 100) = Command.spans .PivotLeft := rfl

theorem spin_timeline (s : Regs) :
    timeline s (spin_180 ++ delay_ms 100) = Command.spans .Spin := rfl

/-- The command a pass of the main loop ends with, from the three
readings: forward if the front reading is above 20, else the right pivot if
the right reading is, else the left pivot if the left reading is, else the
spin. -/
theorem main_pass_command (s : Regs) (pinF pinR pinL : Nat → Bool) :
    commandOf (timeline s (main_pass pinF pinR pinL))
      = some (if (read_distance_cm pinF).cm > 20 then Command.Forward
              else if (read_distance_cm pinR).cm > 20 then Command.PivotRight
              else if (read_distance_cm pinL).cm > 20 then Command.PivotLeft
              else Command.Spin) := by
  unfold main_pass
  simp only [check_right, check_left, OBSTACLE_CM]
  by_cases hf : (read_distance_cm pinF).cm > 20
  · simp only [hf, if_true, List.append_assoc]
    rw [avr_timeline_append, forward_timeline, commandOf_append]
  · by_cases hr : (read_distance_cm pinR).cm > 20
    · simp only [hf, hr, if_true, if_false, List.append_assoc]
      simp only [← List.append_assoc]
      rw [List.append_assoc _ pivot_right_90 (delay_ms 100), avr_timeline_append, pivot_right_timeline,
        commandOf_append]
    · by_cases hl : (read_distance_cm pinL).cm > 20
      · simp only [hf, hr, hl, if_true, if_false, List.append_assoc]
        simp only [← List.append_assoc]
        rw [List.append_assoc _ pivot_left_90 (delay_ms 100), avr_timeline_append, pivot_left_timeline,
          commandOf_append]
      · simp only [hf, hr, hl, if_false, List.append_assoc]
        simp only [← List.append_assoc]
        rw [List.append_assoc _ spin_180 (delay_ms 100), avr_timeline_append, spin_timeline,
          commandOf_append]

/-- C5 (as stated, refuted): with front = 15, left = 50 and right = 50 the
pass ends with the right pivot, not with the left pivot that the order
forward > left > right > spin gives. -/
theorem C5_left_first_refuted :
    (read_distance_cm (echoOf 870)).cm = 15 ∧
    (read_distance_cm (echoOf 2900)).cm = 50 ∧
    specPriority (decide ((15 : Int) > 20)) (decide ((50 : Int) > 20)) (decide ((50 : Int) > 20))
      = Command.PivotLeft ∧
    commandOf (timeline resetRegs (main_pass (echoOf 870) (echoOf 2900) (echoOf 2900)))
      = some Command.PivotRight ∧
    commandOf (timeline resetRegs (main_pass (echoOf 870) (echoOf 2900) (echoOf 2900)))
      ≠ some Command.PivotLeft := by
  have h15 : (read_distance_cm (echoOf 870)).cm = 15 := by
    rw [read_echoOf 870 (by decide)]
    decide
  have h50 : (read_distance_cm (echoOf 2900)).cm = 50 := by
    rw [read_echoOf 2900 (by decide)]
    decide
  have hc := main_pass_command resetRegs (echoOf 870) (echoOf 2900) (echoOf 2900)
  rw [h15, h50] at hc
  refine ⟨h15, h50, by decide, ?_, ?_⟩
  · rw [hc]
    decide
  · rw [hc]
    decide

/-! ### Ranging accesses leave the motors alone -/

theorem ranging_apply (s : Regs) (e : Ev) (h : e.ranging = true) : s.apply e = s := by
  cases e with
  | store r v => simp [Ev.ranging] at h
  | setBits r m => cases r <;> first | rfl | simp [Ev.ranging] at h
  | clearBits r m => cases r <;> first | rfl | simp [Ev.ranging] at h
  | readEcho l => rfl
  | delay_ms ms => simp [Ev.ranging] at h
  | delay_us us => rfl

theorem ranging_regsAfter (s : Regs) (es : List Ev) (h : ∀ e ∈ es, Ev.ranging e = true) :
    regsAfter s es = s := by
  induction es with
  | nil => rfl
  | cons e es ih =>
    have he := ranging_apply s e (h e (List.mem_cons_self _ _))
    have ht := ih (fun x hx => h x (List.mem_cons_of_mem _ hx))
    simp only [regsAfter, List.foldl_cons, he] at ht ⊢
    exact ht

theorem ranging_timeline (s : Regs) (es : List Ev) (h : ∀ e ∈ es, Ev.ranging e = true) :
    ∀ sp ∈ timeline s es, ∃ us, sp = Span.wait s.leftDrive s.rightDrive us := by
  induction es with
  | nil => intro sp hsp; simp [timeline] at hsp
  | cons e es ih =>
    have ht := ih (fun x hx => h x (List.mem_cons_of_mem _ hx))
    have he := ranging_apply s e (h e (List.mem_cons_self _ _))
    have hr := h e (List.mem_cons_self _ _)
    intro sp hsp
    cases e with
    | store r v => simp [Ev.ranging] at hr
    | delay_ms ms => simp [Ev.ranging] at hr
    | setBits r m =>
      simp only [timeline, he] at hsp
      exact ht sp hsp
    | clearBits r m =>
      simp only [timeline, he] at hsp
      exact ht sp hsp
    | readEcho l =>
      simp only [timeline] at hsp
      exact ht sp hsp
    | delay_us us =>
      simp only [timeline, List.mem_cons] at hsp
      rcases hsp with hsp | hsp
      · exact ⟨us, hsp⟩
      · exact ht sp hsp

theorem waitRise_calls (pin : Nat → Bool) :
    ∀ (k pos timeout : Nat), timeout + k = 20000 →
      (∀ e ∈ (waitRise pin pos timeout).calls, Ev.ranging e = true) ∧
      (waitRise pin pos timeout).polls = pos + echoReads (waitRise pin pos timeout).calls := by
  intro k
  induction k with
  | zero =>
    intro pos timeout ht
    have ht0 : timeout + 1 > 20000 := by omega
    rw [waitRise]
    by_cases h0 : pin pos = true
    · simp [h0, Ev.ranging, echoReads]
    · have h0f : pin pos = false := by simpa using h0
      simp [h0f, ht0, Ev.ranging, echoReads]
  | succ k ih =>
    intro pos timeout ht
    have ht0 : ¬ (timeout + 1 > 20000) := by omega
    have hrec := ih (pos + 1) (timeout + 1) (by omega)
    rw [waitRise]
    by_cases h0 : pin pos = true
    · simp [h0, Ev.ranging, echoReads]
    · have h0f : pin pos = false := by simpa using h0
      simp only [h0f, ht0, if_false, Bool.false_eq_true]
      constructor
      · intro e he
        simp only [List.mem_cons] at he
        rcases he with he | he | he
        · rw [he]; rfl
        · rw [he]; rfl
        · exact hrec.1 e he
      · simp only [echoReads]
        rw [hrec.2]
        omega

theorem waitFall_calls (pin : Nat → Bool) :
    ∀ (k pos duration : Nat), duration + k = 20000 →
      (∀ e ∈ (waitFall pin pos duration).calls, Ev.ranging e = true) ∧
      (waitFall pin pos duration).polls
        = pos + echoReads (waitFall pin pos duration).calls := by
  intro k
  induction k with
  | zero =>
    intro pos duration ht
    have ht0 : duration + 1 > 20000 := by omega
    rw [waitFall]
    by_cases h0 : pin pos = true
    · simp [h0, ht0, Ev.ranging, echoReads]
    · simp [h0, Ev.ranging, echoReads]
  | succ k ih =>
    intro pos duration ht
    have ht0 : ¬ (duration + 1 > 20000) := by omega
    have hrec := ih (pos + 1) (duration + 1) (by omega)
    rw [waitFall]
    by_cases h0 : pin pos = true
    · simp only [h0, ht0, if_true, if_false]
      constructor
      · intro e he
        simp only [List.mem_cons] at he
        rcases he with he | he | he
        · rw [he]; rfl
        · rw [he]; rfl
        · exact hrec.1 e he
      · simp only [echoReads]
        rw [hrec.2]
        omega
    · simp [h0, Ev.ranging, echoReads]

theorem echoReads_append (xs ys : List Ev) :
    echoReads (xs ++ ys) = echoReads xs + echoReads ys := by
  induction xs with
  | nil => simp [echoReads]
  | cons e es ih =>
    cases e <;> simp [echoReads, ih]
    omega

/-- The accesses of `read_distance_cm` are ranging accesses, and the reads
of the echo input among them are the polls of the two loops. -/
theorem read_calls (pin : Nat → Bool) :
    (∀ e ∈ (read_distance_cm pin).calls, Ev.ranging e = true) ∧
    echoReads (read_distance_cm pin).calls
      = (read_distance_cm pin).risePolls + (read_distance_cm pin).fallPolls := by
  have hr := waitRise_calls pin 20000 0 0 rfl
  have hf := waitFall_calls pin 20000 (waitRise pin 0 0).polls 0 rfl
  have hfb := waitFall_polls_bound pin 20000 (waitRise pin 0 0).polls 0 rfl
  have htrig : ∀ e ∈ trigger, Ev.ranging e = true := by decide
  have htr : echoReads trigger = 0 := rfl
  unfold read_distance_cm
  by_cases he : (waitRise pin 0 0).edge = true
  · simp only [he, Bool.not_true, Bool.false_eq_true, if_false]
    have hall : ∀ e ∈ trigger ++ (waitRise pin 0 0).calls
        ++ (waitFall pin (waitRise pin 0 0).polls 0).calls, Ev.ranging e = true := by
      intro e hmem
      simp only [List.mem_append] at hmem
      rcases hmem with (h1 | h1) | h1
      · exact htrig e h1
      · exact hr.1 e h1
      · exact hf.1 e h1
    have hcount : echoReads (trigger ++ (waitRise pin 0 0).calls
        ++ (waitFall pin (waitRise pin 0 0).polls 0).calls)
        = (waitRise pin 0 0).polls
          + ((waitFall pin (waitRise pin 0 0).polls 0).polls - (waitRise pin 0 0).polls) := by
      rw [echoReads_append, echoReads_append, htr]
      omega
    cases hd : (waitFall pin (waitRise pin 0 0).polls 0).duration with
    | none => exact ⟨hall, hcount⟩
    | some d => exact ⟨hall, hcount⟩
  · have hef : (waitRise pin 0 0).edge = false := by simpa using he
    simp only [hef, Bool.not_false, if_true]
    constructor
    · intro e hmem
      simp only [List.mem_append] at hmem
      rcases hmem with h1 | h1
      · exact htrig e h1
      · exact hr.1 e h1
    · rw [echoReads_append, htr]
      omega

/-! ### C8, C10 -/

/-- C8: range policy of `read_distance_cm`.  For all echo samples the result
is 999 or lies in 2..200.  It is 999 when the first 20001 reads are all low
(no rising edge within the timeout).  When the first high read is read `n`,
`n ≤ 20000`: it is 999 when the next 20001 reads are all high (the echo
lasts more than 20000 counts); and when `d ≤ 20000` high reads are followed
by a low one (echo count `d`), it is `d / 58` if `2 ≤ d / 58 ≤ 200` and 999
otherwise. -/
theorem C8_read_distance_range (pin : Nat → Bool) :
    ((read_distance_cm pin).cm = 999 ∨
      (2 ≤ (read_distance_cm pin).cm ∧ (read_distance_cm pin).cm ≤ 200)) ∧
    ((∀ i, i ≤ 20000 → pin i = false) → (read_distance_cm pin).cm = 999) ∧
    (∀ n, n ≤ 20000 → (∀ i, i < n → pin i = false) → pin n = true →
      ((∀ j, j ≤ 20000 → pin (n + 1 + j) = true) → (read_distance_cm pin).cm = 999) ∧
      (∀ d, d ≤ 20000 → (∀ j, j < d → pin (n + 1 + j) = true) → pin (n + 1 + d) = false →
        (read_distance_cm pin).cm
          = (if 2 ≤ d / 58 ∧ d / 58 ≤ 200 then ((d / 58 : Nat) : Int) else 999))) := by
  refine ⟨read_range pin, fun h => (read_no_edge pin h).1, ?_⟩
  intro n hn hl hh
  refine ⟨fun hlong => (read_echo_long pin n hn hl hh hlong).1, ?_⟩
  intro d hd hhigh hlow
  exact (read_echo pin n d hn hl hh hd hhigh hlow).1

theorem C8_read_distance_range_witness :
    (read_distance_cm (echoOf 870)).cm
      = (if 2 ≤ 870 / 58 ∧ 870 / 58 ≤ 200 then ((870 / 58 : Nat) : Int) else 999) ∧
    (read_distance_cm (stuckAt false)).cm = 999 ∧
    (read_distance_cm (stuckAt true)).cm = 999 :=
  ⟨((C8_read_distance_range (echoOf 870)).2.2 0 (by decide)
      (by intro i hi; omega) (by decide)).2 870 (by decide)
      (by intro j hj; simp [echoOf]; omega) (by decide),
   (C8_read_distance_range (stuckAt false)).2.1 (fun _ _ => rfl),
   ((C8_read_distance_range (stuckAt true)).2.2 0 (by decide)
      (by intro i hi; omega) rfl).1 (fun _ _ => rfl)⟩

/-- C10: `read_distance_cm` is total: for all echo samples it returns after
at most 20001 reads of the echo input in the first loop and at most 20001
in the second, these reads being all the reads among its accesses.  An
input stuck low gives 999 after 20001 reads; an input stuck high gives 999
after 1 read in the first loop and 20001 in the second. -/
theorem C10_bounded_wait (pin : Nat → Bool) :
    1 ≤ (read_distance_cm pin).risePolls ∧
    (read_distance_cm pin).risePolls ≤ 20001 ∧
    (read_distance_cm pin).fallPolls ≤ 20001 ∧
    echoReads (read_distance_cm pin).calls
      = (read_distance_cm pin).risePolls + (read_distance_cm pin).fallPolls ∧
    ((read_distance_cm (stuckAt false)).cm = 999 ∧
      (read_distance_cm (stuckAt false)).risePolls = 20001 ∧
      (read_distance_cm (stuckAt false)).fallPolls = 0) ∧
    ((read_distance_cm (stuckAt true)).cm = 999 ∧
      (read_distance_cm (stuckAt true)).risePolls = 1 ∧
      (read_distance_cm (stuckAt true)).fallPolls = 20001) := by
  have hb := read_polls_bound pin
  refine ⟨hb.1, hb.2.1, hb.2.2, (read_calls pin).2, ?_, ?_⟩
  · exact read_no_edge (stuckAt false) (fun _ _ => rfl)
  · exact read_echo_long (stuckAt true) 0 (by decide) (by intro i hi; omega) rfl
      (fun _ _ => rfl)

end PureC

namespace Arduino

/-! ### C9 -/

/-- For every echo length from 1 up to `2 ^ 31 - 1` microseconds,
`readDistanceCM` returns the quotient by 58, whatever its size. -/
theorem readDistanceCM_value_of_echo (echo : Nat) (h0 : 0 < echo) (h1 : echo < 2 ^ 31) :
    readDistanceCM_value echo = ((echo / 58 : Nat) : Int) := by
  have hm : echo % 2 ^ 32 = echo := Nat.mod_eq_of_lt (by omega)
  have hl : toLong echo = (echo : Int) := by
    unfold toLong
    rw [hm, if_pos h1]
  unfold readDistanceCM_value
  simp only [hl]
  have hne : ¬ ((echo : Int) = 0) := by omega
  rw [if_neg hne]
  rfl

theorem readDistanceCM_value_of_echo_witness :
    readDistanceCM_value 30 = ((30 / 58 : Nat) : Int) :=
  readDistanceCM_value_of_echo 30 (by decide) (by decide)

/-- C9 (as stated, refuted): `readDistanceCM` has no range policy.  An echo
of 30 microseconds gives the distance 0, returned as a real reading and not
as the sentinel; `decideAndMove` classifies it closed and the heading is
blocked.  An echo of 30000 microseconds gives 517, above 200 and not the
sentinel 400. -/
theorem C9_no_range_policy :
    readDistanceCM_value 0 = 400 ∧
    readDistanceCM_value 30 = 0 ∧
    readDistanceCM_value 30 ≠ 400 ∧
    (scanDirections 30 2900 2900).1 = { front := 0, left := 50, right := 50 } ∧
    isOpenAt OBSTACLE_CM (readDistanceCM_value 30) = false ∧
    directionAvailable dirBlock 0 .DIR_FWD (isOpenAt OBSTACLE_CM (readDistanceCM_value 30))
      = (false, { dirBlock with fwd := { blocked := true, until_ms := 10000 } }) ∧
    (decideAndMove dirBlock 30 2900 2900 0 0 0).1.fwd.blocked = true ∧
    readDistanceCM_value 30000 = 517 ∧
    readDistanceCM_value 57 = 0 ∧
    readDistanceCM_value 115 = 1 := by
  decide

/-- C9 (amended): `readDistanceCM` returns the sentinel 400 when there was no
echo (`pulseIn` returned 0).  For every echo of 1 to 30000 microseconds it
returns `duration / 58`, a value from 0 to 517, as the reading, with no
plausibility bounds.  The reading is classified open exactly when the echo
is at least 1218 microseconds (more than 20 cm).  A reading below 2 cm
(echo below 116) is a real reading, is classified closed and blocks the
heading; a reading above 200 cm (echo from 11658) is classified open. -/
theorem C9_distance_policy (echo : Nat) (mem : DirMem) (t : Nat) (idx : DirIndex)
    (h0 : 0 < echo) (h1 : echo ≤ 30000) :
    readDistanceCM_value 0 = 400 ∧
    readDistanceCM_value echo = ((echo / 58 : Nat) : Int) ∧
    0 ≤ readDistanceCM_value echo ∧ readDistanceCM_value echo ≤ 517 ∧
    (isOpenAt OBSTACLE_CM (readDistanceCM_value echo) = true ↔ 1218 ≤ echo) ∧
    (echo < 116 →
      readDistanceCM_value echo < 2 ∧
      (directionAvailable mem t idx (isOpenAt OBSTACLE_CM (readDistanceCM_value echo))).1
        = false ∧
      ((directionAvailable mem t idx
        (isOpenAt OBSTACLE_CM (readDistanceCM_value echo))).2.get idx).blocked = true) ∧
    (11658 ≤ echo →
      readDistanceCM_value echo > 200 ∧
      isOpenAt OBSTACLE_CM (readDistanceCM_value echo) = true) := by
  have hv := readDistanceCM_value_of_echo echo h0 (by omega)
  have hopen : isOpenAt OBSTACLE_CM (readDistanceCM_value echo) = true ↔ 1218 ≤ echo := by
    rw [hv]
    simp only [isOpenAt, OBSTACLE_CM, decide_eq_true_eq, gt_iff_lt]
    omega
  refine ⟨by decide, hv, ?_, ?_, hopen, ?_, ?_⟩
  · rw [hv]
    omega
  · rw [hv]
    omega
  · intro hnear
    have hclosed : isOpenAt OBSTACLE_CM (readDistanceCM_value echo) = false := by
      cases hc : isOpenAt OBSTACLE_CM (readDistanceCM_value echo) with
      | false => rfl
      | true =>
        have := hopen.1 hc
        omega
    rw [hclosed]
    have hb := closed_reading_blocks mem t idx
    refine ⟨?_, hb.1, hb.2.1⟩
    rw [hv]
    omega
  · intro hfar
    refine ⟨?_, hopen.2 (by omega)⟩
    rw [hv]
    omega

theorem C9_distance_policy_witness :
    readDistanceCM_value 30 = ((30 / 58 : Nat) : Int) ∧
    (directionAvailable dirBlock 0 .DIR_FWD
      (isOpenAt OBSTACLE_CM (readDistanceCM_value 30))).1 = false ∧
    isOpenAt OBSTACLE_CM (readDistanceCM_value 30000) = true :=
  ⟨(C9_distance_policy 30 dirBlock 0 .DIR_FWD (by decide) (by decide)).2.1,
   ((C9_distance_policy 30 dirBlock 0 .DIR_FWD (by decide) (by decide)).2.2.2.2.2.1
      (by decide)).2.1,
   ((C9_distance_policy 30000 dirBlock 0 .DIR_FWD (by decide) (by decide)).2.2.2.2.2.2
      (by decide)).2⟩

end Arduino

namespace Robot

open Drive

/-! ### C6 -/

theorem netRotation_append (xs ys : List Span) :
    netRotation (xs ++ ys) = netRotation xs + netRotation ys := by
  simp [netRotation, List.map_append, List.sum_append]

/-- A timeline whose stretches all have both drives at 0 has no rotation
and no driven stretch. -/
theorem still_timeline (ss : List Span) (h : ∀ sp ∈ ss, ∃ us, sp = Span.wait 0 0 us) :
    netRotation ss = 0 ∧ ss.filter Span.driven = [] := by
  induction ss with
  | nil => exact ⟨rfl, rfl⟩
  | cons sp ss ih =>
    obtain ⟨us, hsp⟩ := h sp (List.mem_cons_self _ _)
    have ht := ih (fun x hx => h x (List.mem_cons_of_mem _ hx))
    subst hsp
    constructor
    · have := netRotation_append [Span.wait 0 0 us] ss
      simp only [List.singleton_append] at this
      rw [this, ht.1]
      simp [netRotation, Span.pivot]
    · rw [List.filter_cons]
      simp [Span.driven, ht.2]

/-- The timeline of the ranging accesses made while the motors are stopped. -/
theorem ranging_while_stopped (s : PureC.Regs) (pin : Nat → Bool)
    (hl : s.leftDrive = 0) (hr : s.rightDrive = 0) :
    netRotation (PureC.timeline s (PureC.read_distance_cm pin).calls) = 0 ∧
    (PureC.timeline s (PureC.read_distance_cm pin).calls).filter Span.driven = [] ∧
    PureC.regsAfter s (PureC.read_distance_cm pin).calls = s := by
  have hc := (PureC.read_calls pin).1
  have ht := PureC.ranging_timeline s _ hc
  rw [hl, hr] at ht
  have hs := still_timeline _ ht
  exact ⟨hs.1, hs.2, PureC.ranging_regsAfter s _ hc⟩

theorem check_right_timeline (s : PureC.Regs) (pin : Nat → Bool) :
    PureC.timeline s (PureC.check_right pin).2
      = [Span.wait 200 (-200) 450000, Span.wait 0 0 100000]
        ++ PureC.timeline (PureC.regsAfter PureC.resetRegs PureC.stop_motors)
            (PureC.read_distance_cm pin).calls
        ++ [Span.wait (-200) 200 450000, Span.wait 0 0 50000] ∧
    PureC.regsAfter s (PureC.check_right pin).2
      = PureC.regsAfter PureC.resetRegs PureC.stop_motors := by
  have hst := ranging_while_stopped (PureC.regsAfter PureC.resetRegs PureC.stop_motors) pin
    rfl rfl
  have hA : PureC.regsAfter s (PureC.pivot_right_90 ++ PureC.delay_ms 100)
      = PureC.regsAfter PureC.resetRegs PureC.stop_motors := rfl
  have e : (PureC.check_right pin).2
      = (PureC.pivot_right_90 ++ PureC.delay_ms 100)
        ++ ((PureC.read_distance_cm pin).calls ++ (PureC.pivot_left_90 ++ PureC.delay_ms 50)) := by
    simp only [PureC.check_right, List.append_assoc]
  have regs_append : ∀ (r : PureC.Regs) (xs ys : List PureC.Ev),
      PureC.regsAfter r (xs ++ ys) = PureC.regsAfter (PureC.regsAfter r xs) ys := by
    intro r xs ys
    simp only [PureC.regsAfter, List.foldl_append]
  constructor
  · rw [e, PureC.avr_timeline_append s, hA, PureC.avr_timeline_append _ _ (_ ++ _), hst.2.2]
    rfl
  · rw [e, regs_append, hA, regs_append, hst.2.2]
    rfl

theorem check_left_timeline (s : PureC.Regs) (pin : Nat → Bool) :
    PureC.timeline s (PureC.check_left pin).2
      = [Span.wait (-200) 200 450000, Span.wait 0 0 100000]
        ++ PureC.timeline (PureC.regsAfter PureC.resetRegs PureC.stop_motors)
            (PureC.read_distance_cm pin).calls
        ++ [Span.wait 200 (-200) 450000, Span.wait 0 0 50000] ∧
    PureC.regsAfter s (PureC.check_left pin).2
      = PureC.regsAfter PureC.resetRegs PureC.stop_motors := by
  have hst := ranging_while_stopped (PureC.regsAfter PureC.resetRegs PureC.stop_motors) pin
    rfl rfl
  have hA : PureC.regsAfter s (PureC.pivot_left_90 ++ PureC.delay_ms 100)
      = PureC.regsAfter PureC.resetRegs PureC.stop_motors := rfl
  have e : (PureC.check_left pin).2
      = (PureC.pivot_left_90 ++ PureC.delay_ms 100)
        ++ ((PureC.read_distance_cm pin).calls ++ (PureC.pivot_right_90 ++ PureC.delay_ms 50)) := by
    simp only [PureC.check_left, List.append_assoc]
  have regs_append : ∀ (r : PureC.Regs) (xs ys : List PureC.Ev),
      PureC.regsAfter r (xs ++ ys) = PureC.regsAfter (PureC.regsAfter r xs) ys := by
    intro r xs ys
    simp only [PureC.regsAfter, List.foldl_append]
  constructor
  · rw [e, PureC.avr_timeline_append s, hA, PureC.avr_timeline_append _ _ (_ ++ _), hst.2.2]
    rfl
  · rw [e, regs_append, hA, regs_append, hst.2.2]
    rfl

theorem scan_timeline (p : Arduino.Pins) (echoF echoL echoR : Nat) :
    Arduino.timeline p (Arduino.scanDirections echoF echoL echoR).2
      = [Span.wait 0 0 100000, Span.wait 0 0 2, Span.wait 0 0 10, Span.echo 0 0,
         Span.wait (-160) 160 400000, Span.wait 0 0 100000,
         Span.wait 0 0 2, Span.wait 0 0 10, Span.echo 0 0,
         Span.wait 160 (-160) 800000, Span.wait 0 0 100000,
         Span.wait 0 0 2, Span.wait 0 0 10, Span.echo 0 0,
         Span.wait (-160) 160 400000, Span.wait 0 0 100000] := rfl

/-- C6: the scan leaves the net orientation unchanged.  In `scanDirections`,
for all echoes and every state of the motor pins, the driven stretches are a
left pivot of `ROTATE_TIME_MS`, a right pivot of `2 * ROTATE_TIME_MS` and a
left pivot of `ROTATE_TIME_MS`, all at `SPEED_TURN`; the signed sum of the
pivots is 0 and both motors are stopped at the end.  In `Main.c`, for all
echo samples and every state of the motor outputs, `check_left` and
`check_right` each make one quarter pivot and the opposite one, of equal
time and speed; the signed sum is 0 and both motors are stopped at the
end. -/
theorem C6_scan_keeps_orientation (p : Arduino.Pins) (echoF echoL echoR : Nat)
    (s : PureC.Regs) (pin : Nat → Bool) :
    (netRotation (Arduino.timeline p (Arduino.scanDirections echoF echoL echoR).2) = 0 ∧
      (Arduino.timeline p (Arduino.scanDirections echoF echoL echoR).2).filter Span.driven
        = [Span.wait (-(Arduino.SPEED_TURN : Int)) Arduino.SPEED_TURN
             (1000 * Arduino.ROTATE_TIME_MS),
           Span.wait Arduino.SPEED_TURN (-(Arduino.SPEED_TURN : Int))
             (1000 * (Arduino.ROTATE_TIME_MS * 2)),
           Span.wait (-(Arduino.SPEED_TURN : Int)) Arduino.SPEED_TURN
             (1000 * Arduino.ROTATE_TIME_MS)] ∧
      (Arduino.pinsAfter p (Arduino.scanDirections echoF echoL echoR).2).leftDrive = 0 ∧
      (Arduino.pinsAfter p (Arduino.scanDirections echoF echoL echoR).2).rightDrive = 0) ∧
    (netRotation (PureC.timeline s (PureC.check_left pin).2) = 0 ∧
      (PureC.timeline s (PureC.check_left pin).2).filter Span.driven
        = [Span.wait (-PureC.DRIVE_PWM) PureC.DRIVE_PWM (1000 * PureC.TURN_90_TIME),
           Span.wait PureC.DRIVE_PWM (-PureC.DRIVE_PWM) (1000 * PureC.TURN_90_TIME)] ∧
      (PureC.regsAfter s (PureC.check_left pin).2).leftDrive = 0 ∧
      (PureC.regsAfter s (PureC.check_left pin).2).rightDrive = 0) ∧
    (netRotation (PureC.timeline s (PureC.check_right pin).2) = 0 ∧
      (PureC.timeline s (PureC.check_right pin).2).filter Span.driven
        = [Span.wait PureC.DRIVE_PWM (-PureC.DRIVE_PWM) (1000 * PureC.TURN_90_TIME),
           Span.wait (-PureC.DRIVE_PWM) PureC.DRIVE_PWM (1000 * PureC.TURN_90_TIME)] ∧
      (PureC.regsAfter s (PureC.check_right pin).2).leftDrive = 0 ∧
      (PureC.regsAfter s (PureC.check_right pin).2).rightDrive = 0) := by
  have hst := ranging_while_stopped (PureC.regsAfter PureC.resetRegs PureC.stop_motors) pin
    rfl rfl
  refine ⟨⟨?_, ?_, rfl, rfl⟩, ⟨?_, ?_, ?_, ?_⟩, ⟨?_, ?_, ?_, ?_⟩⟩
  · rw [scan_timeline]
    decide
  · rw [scan_timeline]
    decide
  · rw [(check_left_timeline s pin).1, netRotation_append, netRotation_append, hst.1]
    decide
  · rw [(check_left_timeline s pin).1, List.filter_append, List.filter_append, hst.2.1]
    decide
  · rw [(check_left_timeline s pin).2]
    rfl
  · rw [(check_left_timeline s pin).2]
    rfl
  · rw [(check_right_timeline s pin).1, netRotation_append, netRotation_append, hst.1]
    decide
  · rw [(check_right_timeline s pin).1, List.filter_append, List.filter_append, hst.2.1]
    decide
  · rw [(check_right_timeline s pin).2]
    rfl
  · rw [(check_right_timeline s pin).2]
    rfl

/-! ### C7 -/

end Robot

namespace Arduino

/-! ### Direction memory, entry by entry -/

theorem set_get_same (m : DirMem) (i : DirIndex) : m.set i (m.get i) = m := by
  cases i <;> rfl

theorem directionAvailable_entry (mem : DirMem) (now : Nat) (i : DirIndex) (o : Bool) :
    directionAvailable mem now i o
      = ((entryStep (mem.get i) now o).1, mem.set i (entryStep (mem.get i) now o).2) := by
  unfold directionAvailable entryStep
  cases o
  · simp
  · by_cases hb : (mem.get i).blocked = true
    · by_cases hlt : now < (mem.get i).until_ms
      · simp [hb, hlt, set_get_same]
      · simp [hb, hlt]
    · simp [hb, set_get_same]

theorem entryStep_agree (a b : DirBlock) (now : Nat) (o : Bool)
    (h : entryAgree a b = true) :
    (entryStep a now o).1 = (entryStep b now o).1 ∧
    entryAgree (entryStep a now o).2 (entryStep b now o).2 = true := by
  obtain ⟨ab, au⟩ := a
  obtain ⟨bb, bu⟩ := b
  cases o
  · simp [entryStep, entryAgree]
  · cases ab <;> cases bb <;> simp [entryAgree] at h
    · simp [entryStep, entryAgree]
    · subst h
      by_cases hlt : now < au
      · simp [entryStep, entryAgree, hlt]
      · simp [entryStep, entryAgree, hlt]

/-! ### C14 -/

theorem callsInOrder_entries (mem : DirMem) (now : Nat) (isOpen : DirIndex → Bool) :
    ∀ order ∈ headingOrders,
      callsInOrder mem now isOpen order
        = ({ frontOK := (entryStep mem.fwd now (isOpen .DIR_FWD)).1,
             leftOK := (entryStep mem.left now (isOpen .DIR_LEFT)).1,
             rightOK := (entryStep mem.right now (isOpen .DIR_RIGHT)).1 },
           { fwd := (entryStep mem.fwd now (isOpen .DIR_FWD)).2,
             left := (entryStep mem.left now (isOpen .DIR_LEFT)).2,
             right := (entryStep mem.right now (isOpen .DIR_RIGHT)).2 }) := by
  intro order ho
  simp only [headingOrders, List.mem_cons, List.mem_singleton, List.not_mem_nil, or_false] at ho
  rcases ho with h | h | h | h | h | h <;> subst h <;>
    simp only [callsInOrder, List.foldl, directionAvailable_entry] <;> rfl

/-- C14: updates are independent.  `directionAvailable(i, isOpenNow)` leaves
`dirBlock[j]` unchanged for every heading `j ≠ i`, for every memory, clock
value and reading.  So, at a common clock value, the three calls of
`decideAndMove` made in any of the six orders of the headings give the same
three flags and the same final memory as in the order front, left, right,
which is what `decideAndMove` computes. -/
theorem C14_updates_independent (mem : DirMem) (now : Nat) (i j : DirIndex) (o : Bool)
    (isOpen : DirIndex → Bool) (s : Scan) :
    (j ≠ i → (directionAvailable mem now i o).2.get j = mem.get j) ∧
    (∀ order ∈ headingOrders,
      callsInOrder mem now isOpen order
        = callsInOrder mem now isOpen [.DIR_FWD, .DIR_LEFT, .DIR_RIGHT]) ∧
    callsInOrder mem now (fun h => isOpenAt OBSTACLE_CM (s.dist h))
        [.DIR_FWD, .DIR_LEFT, .DIR_RIGHT]
      = decideAndMove_avail mem s now now now := by
  refine ⟨fun h => directionAvailable_frame mem now i j o h, ?_, rfl⟩
  intro order ho
  rw [callsInOrder_entries mem now isOpen order ho,
    callsInOrder_entries mem now isOpen [.DIR_FWD, .DIR_LEFT, .DIR_RIGHT] (by decide)]

theorem C14_updates_independent_witness :
    ((directionAvailable dirBlock 7 .DIR_LEFT false).2.get .DIR_RIGHT
      = dirBlock.get .DIR_RIGHT) ∧
    callsInOrder dirBlock 7 (fun h => decide (h = .DIR_LEFT))
        [.DIR_RIGHT, .DIR_LEFT, .DIR_FWD]
      = callsInOrder dirBlock 7 (fun h => decide (h = .DIR_LEFT))
        [.DIR_FWD, .DIR_LEFT, .DIR_RIGHT] :=
  ⟨(C14_updates_independent dirBlock 7 .DIR_LEFT .DIR_RIGHT false
      (fun h => decide (h = .DIR_LEFT)) { front := 0, left := 0, right := 0 }).1 (by decide),
   (C14_updates_independent dirBlock 7 .DIR_LEFT .DIR_RIGHT false
      (fun h => decide (h = .DIR_LEFT)) { front := 0, left := 0, right := 0 }).2.1
      [.DIR_RIGHT, .DIR_LEFT, .DIR_FWD] (by decide)⟩

/-! ### C15 -/

/-- C15: `until_ms` is not read while the entry is not blocked.  For every
heading, reading and clock value, on two memories that differ at most in
`until_ms` of entries that are not blocked, `directionAvailable` returns the
same flag, and the two memories afterwards again have the same `blocked`
flags and the same `until_ms` in every blocked entry. -/
theorem C15_until_not_read_while_unblocked (m1 m2 : DirMem) (now : Nat) (idx : DirIndex)
    (o : Bool) (h : memAgree m1 m2 = true) :
    (directionAvailable m1 now idx o).1 = (directionAvailable m2 now idx o).1 ∧
    memAgree (directionAvailable m1 now idx o).2 (directionAvailable m2 now idx o).2
      = true := by
  simp only [memAgree, Bool.and_eq_true] at h
  obtain ⟨⟨hf, hl⟩, hr⟩ := h
  rw [directionAvailable_entry, directionAvailable_entry]
  cases idx
  · have he := entryStep_agree m1.fwd m2.fwd now o hf
    refine ⟨he.1, ?_⟩
    simp only [memAgree, Bool.and_eq_true, DirMem.set, DirMem.get]
    exact ⟨⟨he.2, hl⟩, hr⟩
  · have he := entryStep_agree m1.left m2.left now o hl
    refine ⟨he.1, ?_⟩
    simp only [memAgree, Bool.and_eq_true, DirMem.set, DirMem.get]
    exact ⟨⟨hf, he.2⟩, hr⟩
  · have he := entryStep_agree m1.right m2.right now o hr
    refine ⟨he.1, ?_⟩
    simp only [memAgree, Bool.and_eq_true, DirMem.set, DirMem.get]
    exact ⟨⟨hf, hl⟩, he.2⟩

theorem C15_until_not_read_while_unblocked_witness :
    memAgree dirBlock { dirBlock with left := { blocked := false, until_ms := 777 } } = true ∧
    (directionAvailable dirBlock 5 .DIR_LEFT true).1
      = (directionAvailable { dirBlock with left := { blocked := false, until_ms := 777 } }
          5 .DIR_LEFT true).1 ∧
    memAgree (directionAvailable dirBlock 5 .DIR_LEFT true).2
      (directionAvailable { dirBlock with left := { blocked := false, until_ms := 777 } }
          5 .DIR_LEFT true).2 = true :=
  ⟨by decide,
   C15_until_not_read_while_unblocked dirBlock
     { dirBlock with left := { blocked := false, until_ms := 777 } } 5 .DIR_LEFT true
     (by decide)⟩

/-! ### C16 -/

/-- C16: the transition on an open reading.  For every heading, memory and
clock value, `directionAvailable(idx, true)` returns `true` exactly when
`dirBlock[idx]` is not blocked or `now ≥ until_ms`.  It never sets `blocked`
and never changes `until_ms`; when it returns `false` the entry (and the
whole memory) is unchanged; when it returns `true` the entry is not blocked
afterwards. -/
theorem C16_open_reading_transition (mem : DirMem) (now : Nat) (idx : DirIndex) :
    ((directionAvailable mem now idx true).1 = true ↔
      ((mem.get idx).blocked = false ∨ now ≥ (mem.get idx).until_ms)) ∧
    (((directionAvailable mem now idx true).2.get idx).blocked = true →
      (mem.get idx).blocked = true) ∧
    ((directionAvailable mem now idx true).2.get idx).until_ms = (mem.get idx).until_ms ∧
    ((directionAvailable mem now idx true).1 = false →
      (directionAvailable mem now idx true).2.get idx = mem.get idx ∧
      (directionAvailable mem now idx true).2 = mem) ∧
    ((directionAvailable mem now idx true).1 = true →
      ((directionAvailable mem now idx true).2.get idx).blocked = false) := by
  rw [directionAvailable_entry]
  simp only [get_set_same]
  by_cases hb : (mem.get idx).blocked = true
  · by_cases hlt : now < (mem.get idx).until_ms
    · simp [entryStep, hb, hlt, set_get_same]
    · simp [entryStep, hb, hlt]
      omega
  · have hbf : (mem.get idx).blocked = false := by simpa using hb
    simp [entryStep, hbf, set_get_same]

theorem C16_open_reading_transition_witness :
    (directionAvailable { dirBlock with fwd := { blocked := true, until_ms := 10000 } }
        5000 .DIR_FWD true).2
      = { dirBlock with fwd := { blocked := true, until_ms := 10000 } } ∧
    ((directionAvailable { dirBlock with fwd := { blocked := true, until_ms := 10000 } }
        10000 .DIR_FWD true).2.get .DIR_FWD).blocked = false :=
  ⟨((C16_open_reading_transition
      { dirBlock with fwd := { blocked := true, until_ms := 10000 } }
      5000 .DIR_FWD).2.2.2.1 (by decide)).2,
   (C16_open_reading_transition
      { dirBlock with fwd := { blocked := true, until_ms := 10000 } }
      10000 .DIR_FWD).2.2.2.2 (by decide)⟩

/-! ### C17 -/

/-- C17 (as stated, refuted): the reading 20 is not below 20, yet
`decideAndMove` classifies it closed: an echo of 1160 microseconds reads
20 cm, the flag `frontOK` is `false` and the heading is blocked. -/
theorem C17_twenty_classified_closed :
    ¬ ((20 : Int) < 20) ∧
    isOpenAt OBSTACLE_CM 20 = false ∧
    readDistanceCM_value 1160 = 20 ∧
    (decideAndMove_avail dirBlock { front := 20, left := 50, right := 50 } 0 0 0).1
      = { frontOK := false, leftOK := true, rightOK := true } ∧
    (decideAndMove dirBlock 1160 2900 2900 0 0 0).1.fwd
      = { blocked := true, until_ms := 10000 } := by
  decide

/-- C17 (amended): the threshold boundary.  The classification computed in
`decideAndMove` is `dist > OBSTACLE_CM`: a distance `d` is classified closed
exactly when `d ≤ 20`.  Every distance below 20 is closed, as the comment at
`OBSTACLE_CM` says, the reading 20 is closed too, and 21 is open.  For every
memory and clock values a front distance of at most 20 makes `frontOK`
false and blocks the heading; from the initial memory each flag is false
exactly when its distance is at most 20. -/
theorem C17_closed_iff_at_most_twenty (d : Int) (mem : DirMem) (s : Scan)
    (t1 t2 t3 : Nat) :
    (isOpenAt OBSTACLE_CM d = false ↔ d ≤ 20) ∧
    (d < 20 → isOpenAt OBSTACLE_CM d = false) ∧
    isOpenAt OBSTACLE_CM 20 = false ∧
    isOpenAt OBSTACLE_CM 21 = true ∧
    (s.front ≤ 20 →
      (decideAndMove_avail mem s t1 t2 t3).1.frontOK = false ∧
      (decideAndMove_avail mem s t1 t2 t3).2.fwd.blocked = true) ∧
    ((decideAndMove_avail dirBlock s t1 t2 t3).1.frontOK = false ↔ s.front ≤ 20) ∧
    ((decideAndMove_avail dirBlock s t1 t2 t3).1.leftOK = false ↔ s.left ≤ 20) ∧
    ((decideAndMove_avail dirBlock s t1 t2 t3).1.rightOK = false ↔ s.right ≤ 20) := by
  have hiff : ∀ x : Int, isOpenAt OBSTACLE_CM x = false ↔ x ≤ 20 := by
    intro x
    simp only [isOpenAt, OBSTACLE_CM, decide_eq_false_iff_not, not_lt, gt_iff_lt]
  refine ⟨hiff d, ?_, by decide, by decide, ?_, ?_, ?_, ?_⟩
  · intro hd
    exact (hiff d).2 (by omega)
  · intro hs
    have hc := (hiff s.front).2 hs
    have hfwd : directionAvailable mem t1 .DIR_FWD (isOpenAt OBSTACLE_CM s.front)
        = (false, mem.set .DIR_FWD
            { blocked := true, until_ms := (t1 + BLOCK_TIME_MS) % ULONG_SIZE }) := by
      rw [hc]
      simp [directionAvailable]
    constructor
    · simp only [decideAndMove_avail, hfwd]
    · have h1 := directionAvailable_frame
        (directionAvailable mem t1 .DIR_FWD (isOpenAt OBSTACLE_CM s.front)).2 t2
        .DIR_LEFT .DIR_FWD (isOpenAt OBSTACLE_CM s.left) (by decide)
      have h2 := directionAvailable_frame
        (directionAvailable
          (directionAvailable mem t1 .DIR_FWD (isOpenAt OBSTACLE_CM s.front)).2 t2
          .DIR_LEFT (isOpenAt OBSTACLE_CM s.left)).2 t3
        .DIR_RIGHT .DIR_FWD (isOpenAt OBSTACLE_CM s.right) (by decide)
      have h3 : (decideAndMove_avail mem s t1 t2 t3).2.get .DIR_FWD
          = (directionAvailable mem t1 .DIR_FWD (isOpenAt OBSTACLE_CM s.front)).2.get
              .DIR_FWD := by
        simp only [decideAndMove_avail]
        rw [h2, h1]
      have h4 : (decideAndMove_avail mem s t1 t2 t3).2.fwd
          = (decideAndMove_avail mem s t1 t2 t3).2.get .DIR_FWD := rfl
      rw [h4, h3, hfwd]
      rfl
  · rw [avail_fresh]
    simp only [decide_eq_false_iff_not, not_lt, gt_iff_lt]
  · rw [avail_fresh]
    simp only [decide_eq_false_iff_not, not_lt, gt_iff_lt]
  · rw [avail_fresh]
    simp only [decide_eq_false_iff_not, not_lt, gt_iff_lt]

theorem C17_closed_iff_at_most_twenty_witness :
    (19 : Int) < 20 ∧ isOpenAt OBSTACLE_CM 19 = false ∧
    (decideAndMove_avail dirBlock { front := 20, left := 50, right := 50 } 0 0 0).1.frontOK
      = false :=
  ⟨by decide,
   (C17_closed_iff_at_most_twenty 19 dirBlock { front := 20, left := 50, right := 50 }
      0 0 0).2.1 (by decide),
   ((C17_closed_iff_at_most_twenty 19 dirBlock { front := 20, left := 50, right := 50 }
      0 0 0).2.2.2.2.1 (by decide)).1⟩

end Arduino

namespace PureC

/-! ### C11 -/

theorem left_forward_regs (s : Regs) (a : Nat) (rest : List Ev) :
    regsAfter s ([.setBits .PORTD (1 <<< PD3), .clearBits .PORTD (1 <<< PD4),
      .store .OCR1A a] ++ rest)
      = regsAfter { s with pd3 := true, pd4 := false, ocr1a := a } rest := rfl

theorem left_backward_regs (s : Regs) (a : Nat) (rest : List Ev) :
    regsAfter s ([.clearBits .PORTD (1 <<< PD3), .setBits .PORTD (1 <<< PD4),
      .store .OCR1A a] ++ rest)
      = regsAfter { s with pd3 := false, pd4 := true, ocr1a := a } rest := rfl

theorem right_forward_regs (s : Regs) (b : Nat) :
    regsAfter s [.setBits .PORTD (1 <<< PD5), .clearBits .PORTD (1 <<< PD6),
      .store .OCR1B b]
      = { s with pd5 := true, pd6 := false, ocr1b := b } := rfl

theorem right_backward_regs (s : Regs) (b : Nat) :
    regsAfter s [.clearBits .PORTD (1 <<< PD5), .setBits .PORTD (1 <<< PD6),
      .store .OCR1B b]
      = { s with pd5 := false, pd6 := true, ocr1b := b } := rfl

/-- The motor outputs after `set_motors(l, r)`, whatever they were before. -/
theorem set_motors_regs (s : Regs) (l r : Int) :
    regsAfter s (set_motors l r)
      = { pd3 := decide (l ≥ 0), pd4 := decide (l < 0),
          pd5 := decide (r ≥ 0), pd6 := decide (r < 0),
          ocr1a := min l.natAbs 255, ocr1b := min r.natAbs 255 } := by
  unfold set_motors
  simp only
  split_ifs <;>
    simp only [left_forward_regs, left_backward_regs, right_forward_regs,
      right_backward_regs] <;>
    simp [toUint8] <;> omega

theorem set_motors_stores (l r : Int) :
    storesTo .OCR1A (set_motors l r) = [min l.natAbs 255] ∧
    storesTo .OCR1B (set_motors l r) = [min r.natAbs 255] := by
  unfold set_motors
  simp only
  split_ifs <;> simp [storesTo, toUint8] <;> omega

/-- C11: speed clamping in `set_motors`.  For all `left_speed`, `right_speed`
(all `int16_t` values among them, -32768 and 32767 included) and whatever the
outputs were before: the one value stored to `OCR1A` is
`min(|left_speed|, 255)`, the one stored to `OCR1B` is
`min(|right_speed|, 255)`, and the registers hold them afterwards; the left
direction bits are forward (`PD3` high, `PD4` low) exactly when
`left_speed ≥ 0` and backward (`PD3` low, `PD4` high) exactly when
`left_speed < 0`, and the same for the right side with `PD5`, `PD6`. -/
theorem C11_speed_clamping (s : Regs) (l r : Int) :
    storesTo .OCR1A (set_motors l r) = [min l.natAbs 255] ∧
    storesTo .OCR1B (set_motors l r) = [min r.natAbs 255] ∧
    (regsAfter s (set_motors l r)).ocr1a = min l.natAbs 255 ∧
    (regsAfter s (set_motors l r)).ocr1b = min r.natAbs 255 ∧
    (((regsAfter s (set_motors l r)).pd3 = true ∧
      (regsAfter s (set_motors l r)).pd4 = false) ↔ l ≥ 0) ∧
    (((regsAfter s (set_motors l r)).pd3 = false ∧
      (regsAfter s (set_motors l r)).pd4 = true) ↔ l < 0) ∧
    (((regsAfter s (set_motors l r)).pd5 = true ∧
      (regsAfter s (set_motors l r)).pd6 = false) ↔ r ≥ 0) ∧
    (((regsAfter s (set_motors l r)).pd5 = false ∧
      (regsAfter s (set_motors l r)).pd6 = true) ↔ r < 0) ∧
    regsAfter s (set_motors (-32768) 32767)
      = { pd3 := false, pd4 := true, pd5 := true, pd6 := false,
          ocr1a := 255, ocr1b := 255 } ∧
    regsAfter s (set_motors 32767 (-32768))
      = { pd3 := true, pd4 := false, pd5 := false, pd6 := true,
          ocr1a := 255, ocr1b := 255 } := by
  have hs := set_motors_stores l r
  refine ⟨hs.1, hs.2, ?_, ?_, ?_, ?_, ?_, ?_, ?_, ?_⟩
  · rw [set_motors_regs]
  · rw [set_motors_regs]
  · rw [set_motors_regs]
    simp only [decide_eq_true_eq, decide_eq_false_iff_not]
    omega
  · rw [set_motors_regs]
    simp only [decide_eq_true_eq, decide_eq_false_iff_not]
    omega
  · rw [set_motors_regs]
    simp only [decide_eq_true_eq, decide_eq_false_iff_not]
    omega
  · rw [set_motors_regs]
    simp only [decide_eq_true_eq, decide_eq_false_iff_not]
    omega
  · rw [set_motors_regs]
    decide
  · rw [set_motors_regs]
    decide

end PureC

namespace Robot

open Drive

/-! ### C13 -/

theorem pinsAfter_append (p : Arduino.Pins) (xs ys : List Arduino.Ev) :
    Arduino.pinsAfter p (xs ++ ys) = Arduino.pinsAfter (Arduino.pinsAfter p xs) ys := by
  simp only [Arduino.pinsAfter, List.foldl_append]

/-- The drives the chosen motion leaves, whatever the pins were before: 0
after the spin, `SPEED_FWD` on both sides after a forward step. -/
theorem move_drives (a : Arduino.Avail) (p : Arduino.Pins) :
    (Arduino.pinsAfter p (Arduino.decideAndMove_move a)).leftDrive
      = (if Arduino.selectByPriority a.frontOK a.leftOK a.rightOK = .SpinInPlace
          then 0 else 180) ∧
    (Arduino.pinsAfter p (Arduino.decideAndMove_move a)).rightDrive
      = (if Arduino.selectByPriority a.frontOK a.leftOK a.rightOK = .SpinInPlace
          then 0 else 180) := by
  obtain ⟨f, l, r⟩ := a
  cases f <;> cases l <;> cases r <;> exact ⟨rfl, rfl⟩

theorem cycle_timeline (mem : Arduino.DirMem) (echoF echoL echoR t1 t2 t3 : Nat)
    (p : Arduino.Pins) :
    Arduino.timeline p (Arduino.decideAndMove mem echoF echoL echoR t1 t2 t3).2
      = Arduino.timeline p (Arduino.scanDirections echoF echoL echoR).2 ++
        (Arduino.selectByPriority
          (Arduino.decideAndMove_avail mem
            (Arduino.scanDirections echoF echoL echoR).1 t1 t2 t3).1.frontOK
          (Arduino.decideAndMove_avail mem
            (Arduino.scanDirections echoF echoL echoR).1 t1 t2 t3).1.leftOK
          (Arduino.decideAndMove_avail mem
            (Arduino.scanDirections echoF echoL echoR).1 t1 t2 t3).1.rightOK).spans := by
  simp only [Arduino.decideAndMove]
  rw [Arduino.timeline_append, Arduino.move_timeline]

/-- C13 (as stated, refuted): from the initial memory with three open
readings of 50 cm `decideAndMove` selects the forward step and returns with
both motors driven forward at 180, not stopped. -/
theorem C13_forward_step_not_stopped :
    Arduino.actionOf (Arduino.timeline
        (Arduino.pinsAfter Arduino.resetPins (Arduino.scanDirections 2900 2900 2900).2)
        (Arduino.decideAndMove_move (Arduino.decideAndMove_avail Arduino.dirBlock
          (Arduino.scanDirections 2900 2900 2900).1 0 0 0).1))
      = some Arduino.Action.MoveForward ∧
    (Arduino.pinsAfter Arduino.resetPins
      (Arduino.decideAndMove Arduino.dirBlock 2900 2900 2900 0 0 0).2).leftDrive = 180 ∧
    (Arduino.pinsAfter Arduino.resetPins
      (Arduino.decideAndMove Arduino.dirBlock 2900 2900 2900 0 0 0).2).rightDrive = 180 ∧
    (Arduino.pinsAfter Arduino.resetPins
      (Arduino.decideAndMove Arduino.dirBlock 2900 2900 2900 0 0 0).2).leftDrive ≠ 0 := by
  decide

/-- C13 (amended): for every memory, echoes, clock values and state of the
pins, the action `decideAndMove` selects sets the motor outputs and waits
its fixed durations.  After the spin both motors are stopped when
`decideAndMove` returns.  After a forward step, alone or following a turn,
both motors are driven forward at `SPEED_FWD` when `decideAndMove` returns;
the next call of `decideAndMove` stops them before its first wait: the first
stretch of its timeline is the settle delay of 100 ms with both motors
stopped. -/
theorem C13_actions_end (mem mem2 : Arduino.DirMem)
    (echoF echoL echoR t1 t2 t3 e1 e2 e3 u1 u2 u3 : Nat) (p : Arduino.Pins) :
    Arduino.timeline (Arduino.pinsAfter p (Arduino.scanDirections echoF echoL echoR).2)
        (Arduino.decideAndMove_move (Arduino.decideAndMove_avail mem
          (Arduino.scanDirections echoF echoL echoR).1 t1 t2 t3).1)
      = (Arduino.selectByPriority
          (Arduino.decideAndMove_avail mem
            (Arduino.scanDirections echoF echoL echoR).1 t1 t2 t3).1.frontOK
          (Arduino.decideAndMove_avail mem
            (Arduino.scanDirections echoF echoL echoR).1 t1 t2 t3).1.leftOK
          (Arduino.decideAndMove_avail mem
            (Arduino.scanDirections echoF echoL echoR).1 t1 t2 t3).1.rightOK).spans ∧
    (Arduino.selectByPriority
        (Arduino.decideAndMove_avail mem
          (Arduino.scanDirections echoF echoL echoR).1 t1 t2 t3).1.frontOK
        (Arduino.decideAndMove_avail mem
          (Arduino.scanDirections echoF echoL echoR).1 t1 t2 t3).1.leftOK
        (Arduino.decideAndMove_avail mem
          (Arduino.scanDirections echoF echoL echoR).1 t1 t2 t3).1.rightOK
        = Arduino.Action.SpinInPlace →
      (Arduino.pinsAfter p
        (Arduino.decideAndMove mem echoF echoL echoR t1 t2 t3).2).leftDrive = 0 ∧
      (Arduino.pinsAfter p
        (Arduino.decideAndMove mem echoF echoL echoR t1 t2 t3).2).rightDrive = 0) ∧
    (Arduino.selectByPriority
        (Arduino.decideAndMove_avail mem
          (Arduino.scanDirections echoF echoL echoR).1 t1 t2 t3).1.frontOK
        (Arduino.decideAndMove_avail mem
          (Arduino.scanDirections echoF echoL echoR).1 t1 t2 t3).1.leftOK
        (Arduino.decideAndMove_avail mem
          (Arduino.scanDirections echoF echoL echoR).1 t1 t2 t3).1.rightOK
        ≠ Arduino.Action.SpinInPlace →
      (Arduino.pinsAfter p
        (Arduino.decideAndMove mem echoF echoL echoR t1 t2 t3).2).leftDrive
          = (Arduino.SPEED_FWD : Int) ∧
      (Arduino.pinsAfter p
        (Arduino.decideAndMove mem echoF echoL echoR t1 t2 t3).2).rightDrive
          = (Arduino.SPEED_FWD : Int)) ∧
    (Arduino.timeline
        (Arduino.pinsAfter p (Arduino.decideAndMove mem echoF echoL echoR t1 t2 t3).2)
        (Arduino.decideAndMove mem2 e1 e2 e3 u1 u2 u3).2).head?
      = some (Span.wait 0 0 (1000 * 100)) := by
  have hd := move_drives (Arduino.decideAndMove_avail mem
      (Arduino.scanDirections echoF echoL echoR).1 t1 t2 t3).1
    (Arduino.pinsAfter p (Arduino.scanDirections echoF echoL echoR).2)
  have hp : Arduino.pinsAfter p (Arduino.decideAndMove mem echoF echoL echoR t1 t2 t3).2
      = Arduino.pinsAfter (Arduino.pinsAfter p (Arduino.scanDirections echoF echoL echoR).2)
          (Arduino.decideAndMove_move (Arduino.decideAndMove_avail mem
            (Arduino.scanDirections echoF echoL echoR).1 t1 t2 t3).1) := by
    simp only [Arduino.decideAndMove]
    rw [pinsAfter_append]
  refine ⟨Arduino.move_timeline _ _, ?_, ?_, ?_⟩
  · intro hs
    rw [hp, hd.1, hd.2, if_pos hs]
    exact ⟨rfl, rfl⟩
  · intro hs
    rw [hp, hd.1, hd.2, if_neg hs]
    exact ⟨rfl, rfl⟩
  · rw [cycle_timeline, scan_timeline]
    rfl

theorem C13_actions_end_witness :
    ((Arduino.pinsAfter Arduino.resetPins
        (Arduino.decideAndMove Arduino.dirBlock 2900 2900 2900 0 0 0).2).leftDrive
          = (Arduino.SPEED_FWD : Int) ∧
      (Arduino.pinsAfter Arduino.resetPins
        (Arduino.decideAndMove Arduino.dirBlock 2900 2900 2900 0 0 0).2).rightDrive
          = (Arduino.SPEED_FWD : Int)) ∧
    ((Arduino.pinsAfter Arduino.resetPins
        (Arduino.decideAndMove Arduino.dirBlock 580 580 580 0 0 0).2).leftDrive = 0 ∧
      (Arduino.pinsAfter Arduino.resetPins
        (Arduino.decideAndMove Arduino.dirBlock 580 580 580 0 0 0).2).rightDrive = 0) :=
  ⟨(C13_actions_end Arduino.dirBlock Arduino.dirBlock 2900 2900 2900 0 0 0 0 0 0 0 0 0
      Arduino.resetPins).2.2.1 (by decide),
   (C13_actions_end Arduino.dirBlock Arduino.dirBlock 580 580 580 0 0 0 0 0 0 0 0 0
      Arduino.resetPins).2.1 (by decide)⟩

/-! ### C12 -/

theorem cycle_allowed (mem : Arduino.DirMem) (echoF echoL echoR t1 t2 t3 : Nat)
    (p : Arduino.Pins) :
    (Arduino.timeline p
      (Arduino.decideAndMove mem echoF echoL echoR t1 t2 t3).2).all Span.allowed = true := by
  rw [cycle_timeline, scan_timeline, List.all_append]
  generalize Arduino.selectByPriority _ _ _ = a
  cases a <;> decide

theorem run_allowed (inputs : Nat → Arduino.CycleInput) :
    ∀ n, (Arduino.timeline Arduino.resetPins (Arduino.run inputs n).2).all Span.allowed
      = true := by
  intro n
  induction n with
  | zero => rfl
  | succ n ih =>
    simp only [Arduino.run]
    rw [Arduino.timeline_append, List.all_append, ih, cycle_allowed]
    rfl

theorem regsAfter_append (s : PureC.Regs) (xs ys : List PureC.Ev) :
    PureC.regsAfter s (xs ++ ys) = PureC.regsAfter (PureC.regsAfter s xs) ys := by
  simp only [PureC.regsAfter, List.foldl_append]

theorem allowed_append (s : PureC.Regs) (xs ys : List PureC.Ev) :
    (PureC.timeline s (xs ++ ys)).all Span.allowed
      = ((PureC.timeline s xs).all Span.allowed &&
         (PureC.timeline (PureC.regsAfter s xs) ys).all Span.allowed) := by
  rw [PureC.avr_timeline_append, List.all_append]

/-- Ranging while the motor outputs are allowed: every stretch is allowed and
the outputs are unchanged. -/
theorem reading_allowed (s : PureC.Regs) (pin : Nat → Bool)
    (h : okDrive s.leftDrive s.rightDrive = true) :
    (PureC.timeline s (PureC.read_distance_cm pin).calls).all Span.allowed = true ∧
    PureC.regsAfter s (PureC.read_distance_cm pin).calls = s := by
  have hc := (PureC.read_calls pin).1
  refine ⟨?_, PureC.ranging_regsAfter s _ hc⟩
  rw [List.all_eq_true]
  intro sp hsp
  obtain ⟨us, hus⟩ := PureC.ranging_timeline s _ hc sp hsp
  rw [hus]
  exact h

theorem check_right_allowed (s : PureC.Regs) (pin : Nat → Bool) :
    (PureC.timeline s (PureC.check_right pin).2).all Span.allowed = true := by
  rw [(check_right_timeline s pin).1, List.all_append, List.all_append,
    (reading_allowed (PureC.regsAfter PureC.resetRegs PureC.stop_motors) pin rfl).1]
  rfl

theorem check_left_allowed (s : PureC.Regs) (pin : Nat → Bool) :
    (PureC.timeline s (PureC.check_left pin).2).all Span.allowed = true := by
  rw [(check_left_timeline s pin).1, List.all_append, List.all_append,
    (reading_allowed (PureC.regsAfter PureC.resetRegs PureC.stop_motors) pin rfl).1]
  rfl

theorem stop_motors_effect (s : PureC.Regs) :
    PureC.timeline s PureC.stop_motors = [] ∧
    PureC.regsAfter s PureC.stop_motors
      = PureC.regsAfter PureC.resetRegs PureC.stop_motors :=
  ⟨rfl, rfl⟩

/-- The four ends of a pass, from any motor outputs: every stretch is
allowed and so are the outputs left. -/
theorem pass_end_allowed (s : PureC.Regs) :
    ((PureC.timeline s (PureC.move_forward ++ PureC.delay_ms 100)).all Span.allowed = true ∧
      okDrive (PureC.regsAfter s (PureC.move_forward ++ PureC.delay_ms 100)).leftDrive
        (PureC.regsAfter s (PureC.move_forward ++ PureC.delay_ms 100)).rightDrive = true) ∧
    ((PureC.timeline s (PureC.pivot_right_90 ++ PureC.delay_ms 100)).all Span.allowed = true ∧
      okDrive (PureC.regsAfter s (PureC.pivot_right_90 ++ PureC.delay_ms 100)).leftDrive
        (PureC.regsAfter s (PureC.pivot_right_90 ++ PureC.delay_ms 100)).rightDrive = true) ∧
    ((PureC.timeline s (PureC.pivot_left_90 ++ PureC.delay_ms 100)).all Span.allowed = true ∧
      okDrive (PureC.regsAfter s (PureC.pivot_left_90 ++ PureC.delay_ms 100)).leftDrive
        (PureC.regsAfter s (PureC.pivot_left_90 ++ PureC.delay_ms 100)).rightDrive = true) ∧
    ((PureC.timeline s (PureC.spin_180 ++ PureC.delay_ms 100)).all Span.allowed = true ∧
      okDrive (PureC.regsAfter s (PureC.spin_180 ++ PureC.delay_ms 100)).leftDrive
        (PureC.regsAfter s (PureC.spin_180 ++ PureC.delay_ms 100)).rightDrive = true) :=
  ⟨⟨rfl, rfl⟩, ⟨rfl, rfl⟩, ⟨rfl, rfl⟩, ⟨rfl, rfl⟩⟩

/-- One pass of the main loop from allowed motor outputs: every stretch is
allowed, and so are the outputs the pass leaves. -/
theorem main_pass_allowed (s : PureC.Regs) (pinF pinR pinL : Nat → Bool)
    (h : okDrive s.leftDrive s.rightDrive = true) :
    (PureC.timeline s (PureC.main_pass pinF pinR pinL)).all Span.allowed = true ∧
    okDrive (PureC.regsAfter s (PureC.main_pass pinF pinR pinL)).leftDrive
      (PureC.regsAfter s (PureC.main_pass pinF pinR pinL)).rightDrive = true := by
  have hA := reading_allowed s pinF h
  have hstop := stop_motors_effect s
  have hcr := check_right_allowed (PureC.regsAfter PureC.resetRegs PureC.stop_motors) pinR
  have hcrs := (check_right_timeline
    (PureC.regsAfter PureC.resetRegs PureC.stop_motors) pinR).2
  have hcl := check_left_allowed (PureC.regsAfter PureC.resetRegs PureC.stop_motors) pinL
  have hcls := (check_left_timeline
    (PureC.regsAfter PureC.resetRegs PureC.stop_motors) pinL).2
  have hend := pass_end_allowed (PureC.regsAfter PureC.resetRegs PureC.stop_motors)
  have hendS := pass_end_allowed s
  simp only [PureC.main_pass]
  by_cases hf : (PureC.read_distance_cm pinF).cm > PureC.OBSTACLE_CM
  · simp only [hf, if_true, List.append_assoc]
    rw [allowed_append, regsAfter_append, hA.1, hA.2]
    exact ⟨by rw [hendS.1.1]; rfl, hendS.1.2⟩
  · by_cases hr : (PureC.check_right pinR).1 > PureC.OBSTACLE_CM
    · simp only [hf, hr, if_true, if_false, List.append_assoc]
      rw [allowed_append, regsAfter_append, hA.1, hA.2,
        allowed_append, regsAfter_append, hstop.1, hstop.2,
        allowed_append, regsAfter_append, hcr, hcrs]
      exact ⟨by rw [hend.2.1.1]; rfl, hend.2.1.2⟩
    · by_cases hl : (PureC.check_left pinL).1 > PureC.OBSTACLE_CM
      · simp only [hf, hr, hl, if_true, if_false, List.append_assoc]
        rw [allowed_append, regsAfter_append, hA.1, hA.2,
          allowed_append, regsAfter_append, hstop.1, hstop.2,
          allowed_append, regsAfter_append, hcr, hcrs,
          allowed_append, regsAfter_append, hcl, hcls]
        exact ⟨by rw [hend.2.2.1.1]; rfl, hend.2.2.1.2⟩
      · simp only [hf, hr, hl, if_false, List.append_assoc]
        rw [allowed_append, regsAfter_append, hA.1, hA.2,
          allowed_append, regsAfter_append, hstop.1, hstop.2,
          allowed_append, regsAfter_append, hcr, hcrs,
          allowed_append, regsAfter_append, hcl, hcls]
        exact ⟨by rw [hend.2.2.2.1]; rfl, hend.2.2.2.2⟩

theorem main_run_allowed (inputs : Nat → PureC.PassInput) :
    ∀ n, (PureC.timeline PureC.resetRegs (PureC.main_run inputs n)).all Span.allowed = true ∧
      okDrive (PureC.regsAfter PureC.resetRegs (PureC.main_run inputs n)).leftDrive
        (PureC.regsAfter PureC.resetRegs (PureC.main_run inputs n)).rightDrive = true := by
  intro n
  induction n with
  | zero => exact ⟨rfl, rfl⟩
  | succ n ih =>
    have hp := main_pass_allowed (PureC.regsAfter PureC.resetRegs (PureC.main_run inputs n))
      (inputs n).pinF (inputs n).pinR (inputs n).pinL ih.2
    simp only [PureC.main_run]
    rw [allowed_append, regsAfter_append, ih.1, hp.1]
    exact ⟨rfl, hp.2⟩

theorem okDrive_cases (l r : Int) (h : okDrive l r = true) :
    ((l = 0 ∧ r = 0) ∨ (0 < l ∧ r = l) ∨ (l ≠ 0 ∧ r = -l)) ∧
    ¬ (l < 0 ∧ r < 0) ∧ ¬ (l ≠ 0 ∧ r = 0) ∧ ¬ (l = 0 ∧ r ≠ 0) := by
  simp only [okDrive, decide_eq_true_eq] at h
  refine ⟨h, ?_, ?_, ?_⟩ <;> omega

/-- C12: no literal reverse and no single-wheel steering.  In both variants,
during every stretch of time of the program (the startup, then any number of
rounds: scan and selected action in `DCMotor.h`, pass of the main loop in
`Main.c`), for all echoes, echo samples, clock values and memories, the
motor outputs are allowed: both sides stopped, both forward at the same
speed, or the two sides with opposite signs at the same speed.  So both
sides are never driven backward together, and no side is driven while the
other is stopped. -/
theorem C12_no_reverse_no_single_wheel (mem : Arduino.DirMem)
    (echoF echoL echoR t1 t2 t3 : Nat) (p : Arduino.Pins)
    (inputs : Nat → Arduino.CycleInput) (s : PureC.Regs) (pinF pinR pinL : Nat → Bool)
    (passes : Nat → PureC.PassInput) (n : Nat) (l r : Int) :
    (Arduino.timeline p
      (Arduino.decideAndMove mem echoF echoL echoR t1 t2 t3).2).all Span.allowed = true ∧
    (Arduino.timeline Arduino.resetPins (Arduino.run inputs n).2).all Span.allowed = true ∧
    (okDrive s.leftDrive s.rightDrive = true →
      (PureC.timeline s (PureC.main_pass pinF pinR pinL)).all Span.allowed = true ∧
      okDrive (PureC.regsAfter s (PureC.main_pass pinF pinR pinL)).leftDrive
        (PureC.regsAfter s (PureC.main_pass pinF pinR pinL)).rightDrive = true) ∧
    (PureC.timeline PureC.resetRegs (PureC.main_run passes n)).all Span.allowed = true ∧
    (okDrive l r = true →
      ((l = 0 ∧ r = 0) ∨ (0 < l ∧ r = l) ∨ (l ≠ 0 ∧ r = -l)) ∧
      ¬ (l < 0 ∧ r < 0) ∧ ¬ (l ≠ 0 ∧ r = 0) ∧ ¬ (l = 0 ∧ r ≠ 0)) :=
  ⟨cycle_allowed mem echoF echoL echoR t1 t2 t3 p, run_allowed inputs n,
   main_pass_allowed s pinF pinR pinL, (main_run_allowed passes n).1, okDrive_cases l r⟩

theorem C12_no_reverse_no_single_wheel_witness :
    okDrive PureC.resetRegs.leftDrive PureC.resetRegs.rightDrive = true ∧
    (PureC.timeline PureC.resetRegs
      (PureC.main_pass (PureC.echoOf 870) (PureC.echoOf 2900)
        (PureC.echoOf 2900))).all Span.allowed = true ∧
    ¬ ((200 : Int) < 0 ∧ (-200 : Int) < 0) :=
  ⟨by decide,
   ((C12_no_reverse_no_single_wheel Arduino.dirBlock 0 0 0 0 0 0 Arduino.resetPins
      (fun _ => { echoF := 0, echoL := 0, echoR := 0, t1 := 0, t2 := 0, t3 := 0 })
      PureC.resetRegs (PureC.echoOf 870) (PureC.echoOf 2900) (PureC.echoOf 2900)
      (fun _ => { pinF := PureC.echoOf 870, pinR := PureC.echoOf 2900,
                  pinL := PureC.echoOf 2900 })
      1 200 (-200)).2.2.1 (by decide)).1,
   ((C12_no_reverse_no_single_wheel Arduino.dirBlock 0 0 0 0 0 0 Arduino.resetPins
      (fun _ => { echoF := 0, echoL := 0, echoR := 0, t1 := 0, t2 := 0, t3 := 0 })
      PureC.resetRegs (PureC.echoOf 870) (PureC.echoOf 2900) (PureC.echoOf 2900)
      (fun _ => { pinF := PureC.echoOf 870, pinR := PureC.echoOf 2900,
                  pinL := PureC.echoOf 2900 })
      1 200 (-200)).2.2.2.2 (by decide)).2.1⟩

/-! ### C5 -/

/-- The whole timeline of one pass of the main loop of `Main.c`: the front
ranging under the outputs the pass starts with; then forward if the front
reading is above 20; else the look to the right and, if the right reading
is above 20, the right pivot; else the look to the left and the left pivot
if the left reading is above 20, the spin if not. -/
theorem main_pass_timeline (s : PureC.Regs) (pinF pinR pinL : Nat → Bool) :
    PureC.timeline s (PureC.main_pass pinF pinR pinL)
      = PureC.timeline s (PureC.read_distance_cm pinF).calls ++
        (if (PureC.read_distance_cm pinF).cm > 20 then PureC.Command.spans .Forward
         else
          PureC.lookRightSpans
            (PureC.timeline (PureC.regsAfter PureC.resetRegs PureC.stop_motors)
              (PureC.read_distance_cm pinR).calls) ++
          (if (PureC.read_distance_cm pinR).cm > 20 then PureC.Command.spans .PivotRight
           else
            PureC.lookLeftSpans
              (PureC.timeline (PureC.regsAfter PureC.resetRegs PureC.stop_motors)
                (PureC.read_distance_cm pinL).calls) ++
            (if (PureC.read_distance_cm pinL).cm > 20 then PureC.Command.spans .PivotLeft
             else PureC.Command.spans .Spin))) := by
  have hcr := check_right_timeline (PureC.regsAfter PureC.resetRegs PureC.stop_motors) pinR
  have hcl := check_left_timeline (PureC.regsAfter PureC.resetRegs PureC.stop_motors) pinL
  simp only [PureC.main_pass]
  by_cases hf : (PureC.read_distance_cm pinF).cm > 20
  · have hf2 : (PureC.read_distance_cm pinF).cm > PureC.OBSTACLE_CM := hf
    simp only [hf2, if_true, List.append_assoc]
    rw [if_pos hf, PureC.avr_timeline_append, PureC.forward_timeline]
  · have hf2 : ¬ (PureC.read_distance_cm pinF).cm > PureC.OBSTACLE_CM := hf
    rw [if_neg hf]
    by_cases hr : (PureC.read_distance_cm pinR).cm > 20
    · have hr2 : (PureC.check_right pinR).1 > PureC.OBSTACLE_CM := hr
      simp only [hf2, hr2, if_true, if_false, List.append_assoc]
      rw [if_pos hr, PureC.avr_timeline_append,
        PureC.avr_timeline_append _ PureC.stop_motors,
        (stop_motors_effect _).1, (stop_motors_effect _).2,
        PureC.avr_timeline_append _ (PureC.check_right pinR).2, hcr.1, hcr.2,
        PureC.pivot_right_timeline]
      rfl
    · have hr2 : ¬ (PureC.check_right pinR).1 > PureC.OBSTACLE_CM := hr
      rw [if_neg hr]
      by_cases hl : (PureC.read_distance_cm pinL).cm > 20
      · have hl2 : (PureC.check_left pinL).1 > PureC.OBSTACLE_CM := hl
        simp only [hf2, hr2, hl2, if_true, if_false, List.append_assoc]
        rw [if_pos hl, PureC.avr_timeline_append,
          PureC.avr_timeline_append _ PureC.stop_motors,
          (stop_motors_effect _).1, (stop_motors_effect _).2,
          PureC.avr_timeline_append _ (PureC.check_right pinR).2, hcr.1, hcr.2,
          PureC.avr_timeline_append _ (PureC.check_left pinL).2, hcl.1, hcl.2,
          PureC.pivot_left_timeline]
        simp only [PureC.lookRightSpans, PureC.lookLeftSpans, List.append_assoc,
          List.nil_append]
      · have hl2 : ¬ (PureC.check_left pinL).1 > PureC.OBSTACLE_CM := hl
        simp only [hf2, hr2, hl2, if_false, List.append_assoc]
        rw [if_neg hl, PureC.avr_timeline_append,
          PureC.avr_timeline_append _ PureC.stop_motors,
          (stop_motors_effect _).1, (stop_motors_effect _).2,
          PureC.avr_timeline_append _ (PureC.check_right pinR).2, hcr.1, hcr.2,
          PureC.avr_timeline_append _ (PureC.check_left pinL).2, hcl.1, hcl.2,
          PureC.spin_timeline]
        simp only [PureC.lookRightSpans, PureC.lookLeftSpans, List.append_assoc,
          List.nil_append]

/-- The samples of a heading that is not looked at do not matter: the right
and left samples when the front reading is above 20, the left samples when
the right reading is above 20. -/
theorem main_pass_unread (pinF pinR pinL pinR2 pinL2 : Nat → Bool) :
    ((PureC.read_distance_cm pinF).cm > 20 →
      PureC.main_pass pinF pinR pinL = PureC.main_pass pinF pinR2 pinL2) ∧
    ((PureC.read_distance_cm pinR).cm > 20 →
      PureC.main_pass pinF pinR pinL = PureC.main_pass pinF pinR pinL2) := by
  constructor
  · intro hf
    have hf2 : (PureC.read_distance_cm pinF).cm > PureC.OBSTACLE_CM := hf
    simp only [PureC.main_pass, hf2, if_true]
  · intro hr
    have hr2 : (PureC.check_right pinR).1 > PureC.OBSTACLE_CM := hr
    simp only [PureC.main_pass, hr2, if_true]

/-- The reads of the echo input made by one pass: those of the front
ranging, those of the right ranging when the front reading is not above 20,
and those of the left ranging when neither is. -/
theorem main_pass_reads (pinF pinR pinL : Nat → Bool) :
    PureC.echoReads (PureC.main_pass pinF pinR pinL)
      = PureC.echoReads (PureC.read_distance_cm pinF).calls +
        (if (PureC.read_distance_cm pinF).cm > 20 then 0
         else PureC.echoReads (PureC.read_distance_cm pinR).calls +
          (if (PureC.read_distance_cm pinR).cm > 20 then 0
           else PureC.echoReads (PureC.read_distance_cm pinL).calls)) := by
  have e1 : PureC.echoReads PureC.move_forward = 0 := rfl
  have e2 : PureC.echoReads PureC.stop_motors = 0 := rfl
  have e3 : PureC.echoReads PureC.pivot_right_90 = 0 := rfl
  have e4 : PureC.echoReads PureC.pivot_left_90 = 0 := rfl
  have e5 : PureC.echoReads PureC.spin_180 = 0 := rfl
  have e6 : ∀ n, PureC.echoReads (PureC.delay_ms n) = 0 := fun _ => rfl
  simp only [PureC.main_pass, PureC.check_right, PureC.check_left]
  by_cases hf : (PureC.read_distance_cm pinF).cm > 20
  · have hf2 : (PureC.read_distance_cm pinF).cm > PureC.OBSTACLE_CM := hf
    simp only [hf2, hf, if_true, PureC.echoReads_append, e1, e6]
  · have hf2 : ¬ (PureC.read_distance_cm pinF).cm > PureC.OBSTACLE_CM := hf
    by_cases hr : (PureC.read_distance_cm pinR).cm > 20
    · have hr2 : (PureC.read_distance_cm pinR).cm > PureC.OBSTACLE_CM := hr
      simp only [hf2, hf, hr2, hr, if_true, if_false, PureC.echoReads_append,
        e2, e3, e4, e6]
      omega
    · have hr2 : ¬ (PureC.read_distance_cm pinR).cm > PureC.OBSTACLE_CM := hr
      by_cases hl : (PureC.read_distance_cm pinL).cm > 20
      · have hl2 : (PureC.read_distance_cm pinL).cm > PureC.OBSTACLE_CM := hl
        simp only [hf2, hf, hr2, hr, hl2, if_true, if_false, PureC.echoReads_append,
          e2, e3, e4, e6]
        omega
      · have hl2 : ¬ (PureC.read_distance_cm pinL).cm > PureC.OBSTACLE_CM := hl
        simp only [hf2, hf, hr2, hr, hl2, if_false, PureC.echoReads_append,
          e2, e3, e4, e5, e6]
        omega

/-- C5 (amended): one pass of the main loop of `Main.c`, for every state of
the motor outputs and all echo samples, is the front ranging followed by:
forward, if the front reading is above 20; else the look to the right
(`check_right`, motors stopped while ranging) and the right pivot, if the
right reading is above 20; else the look to the left (`check_left`) and the
left pivot, if the left reading is above 20, or the spin.  The order is
forward > right > left > spin.  The left heading is looked at and measured
only when neither the front nor the right reading is above 20, the right
heading only when the front reading is not.  With front = 15, left = 50,
right = 50 the pass ends with the right pivot; with front = 15, right = 10,
left = 50 with the left pivot. -/
theorem C5_pure_c_priority (s : PureC.Regs) (pinF pinR pinL pinR2 pinL2 : Nat → Bool) :
    PureC.timeline s (PureC.main_pass pinF pinR pinL)
      = PureC.timeline s (PureC.read_distance_cm pinF).calls ++
        (if (PureC.read_distance_cm pinF).cm > 20 then PureC.Command.spans .Forward
         else
          PureC.lookRightSpans
            (PureC.timeline (PureC.regsAfter PureC.resetRegs PureC.stop_motors)
              (PureC.read_distance_cm pinR).calls) ++
          (if (PureC.read_distance_cm pinR).cm > 20 then PureC.Command.spans .PivotRight
           else
            PureC.lookLeftSpans
              (PureC.timeline (PureC.regsAfter PureC.resetRegs PureC.stop_motors)
                (PureC.read_distance_cm pinL).calls) ++
            (if (PureC.read_distance_cm pinL).cm > 20 then PureC.Command.spans .PivotLeft
             else PureC.Command.spans .Spin))) ∧
    ((PureC.timeline (PureC.regsAfter PureC.resetRegs PureC.stop_motors)
        (PureC.read_distance_cm pinR).calls).filter Span.driven = [] ∧
      (PureC.timeline (PureC.regsAfter PureC.resetRegs PureC.stop_motors)
        (PureC.read_distance_cm pinL).calls).filter Span.driven = []) ∧
    PureC.commandOf (PureC.timeline s (PureC.main_pass pinF pinR pinL))
      = some (if (PureC.read_distance_cm pinF).cm > 20 then PureC.Command.Forward
              else if (PureC.read_distance_cm pinR).cm > 20 then PureC.Command.PivotRight
              else if (PureC.read_distance_cm pinL).cm > 20 then PureC.Command.PivotLeft
              else PureC.Command.Spin) ∧
    ((PureC.read_distance_cm pinF).cm > 20 →
      PureC.main_pass pinF pinR pinL = PureC.main_pass pinF pinR2 pinL2) ∧
    ((PureC.read_distance_cm pinR).cm > 20 →
      PureC.main_pass pinF pinR pinL = PureC.main_pass pinF pinR pinL2) ∧
    PureC.echoReads (PureC.main_pass pinF pinR pinL)
      = PureC.echoReads (PureC.read_distance_cm pinF).calls +
        (if (PureC.read_distance_cm pinF).cm > 20 then 0
         else PureC.echoReads (PureC.read_distance_cm pinR).calls +
          (if (PureC.read_distance_cm pinR).cm > 20 then 0
           else PureC.echoReads (PureC.read_distance_cm pinL).calls)) ∧
    1 ≤ PureC.echoReads (PureC.read_distance_cm pinL).calls ∧
    PureC.commandOf (PureC.timeline s
        (PureC.main_pass (PureC.echoOf 870) (PureC.echoOf 2900) (PureC.echoOf 2900)))
      = some PureC.Command.PivotRight ∧
    PureC.commandOf (PureC.timeline s
        (PureC.main_pass (PureC.echoOf 870) (PureC.echoOf 580) (PureC.echoOf 2900)))
      = some PureC.Command.PivotLeft ∧
    Function.Injective PureC.Command.spans := by
  have h15 : (PureC.read_distance_cm (PureC.echoOf 870)).cm = 15 := by
    rw [PureC.read_echoOf 870 (by decide)]
    decide
  have h50 : (PureC.read_distance_cm (PureC.echoOf 2900)).cm = 50 := by
    rw [PureC.read_echoOf 2900 (by decide)]
    decide
  have h10 : (PureC.read_distance_cm (PureC.echoOf 580)).cm = 10 := by
    rw [PureC.read_echoOf 580 (by decide)]
    decide
  have hst := ranging_while_stopped (PureC.regsAfter PureC.resetRegs PureC.stop_motors)
  have hun := main_pass_unread pinF pinR pinL pinR2 pinL2
  refine ⟨main_pass_timeline s pinF pinR pinL, ⟨(hst pinR rfl rfl).2.1, (hst pinL rfl rfl).2.1⟩,
    PureC.main_pass_command s pinF pinR pinL, hun.1, hun.2,
    main_pass_reads pinF pinR pinL, ?_, ?_, ?_, ?_⟩
  · rw [(PureC.read_calls pinL).2]
    have := (PureC.read_polls_bound pinL).1
    omega
  · rw [PureC.main_pass_command, h15, h50]
    decide
  · rw [PureC.main_pass_command, h15, h50, h10]
    decide
  · intro x y h
    cases x <;> cases y <;> first | rfl | exact absurd h (by decide)

theorem C5_pure_c_priority_witness :
    (PureC.read_distance_cm (PureC.echoOf 2900)).cm > 20 ∧
    PureC.main_pass (PureC.echoOf 870) (PureC.echoOf 2900) (PureC.echoOf 2900)
      = PureC.main_pass (PureC.echoOf 870) (PureC.echoOf 2900) (PureC.stuckAt false) ∧
    PureC.main_pass (PureC.echoOf 2900) (PureC.echoOf 870) (PureC.echoOf 870)
      = PureC.main_pass (PureC.echoOf 2900) (PureC.stuckAt true) (PureC.stuckAt false) :=
  have h50 : (PureC.read_distance_cm (PureC.echoOf 2900)).cm > 20 := by
    rw [PureC.read_echoOf 2900 (by decide)]
    decide
  ⟨h50,
   (C5_pure_c_priority PureC.resetRegs (PureC.echoOf 870) (PureC.echoOf 2900)
      (PureC.echoOf 2900) (PureC.echoOf 2900) (PureC.stuckAt false)).2.2.2.2.1 h50,
   (C5_pure_c_priority PureC.resetRegs (PureC.echoOf 2900) (PureC.echoOf 870)
      (PureC.echoOf 870) (PureC.stuckAt true) (PureC.stuckAt false)).2.2.2.1 h50⟩

end Robot
